import Mathlib

/-!
Formal model of the task scheduling, filtering and positioning core of the
Vikunja task tracker (`pkg/models/tasks.go` and
`pkg/models/task_collection_filter.go`).

Instants are modelled as integer numbers of seconds since the Go zero time
(0001-01-01 00:00:00) in the single configured server time zone.  The Go zero
`time.Time` is the integer `0`, so `Time.IsZero` becomes `= 0`.  Durations are
integer seconds as well (`RepeatAfter` is stored in seconds in the source).
-/

namespace Vikunja

/-! ## Calendar model (Go `time.Date` semantics)

`addOneMonthToDate` in the source calls Go's `time.Date`, which first
normalizes an out-of-range month into `1..12` (shifting the year) and then
treats an out-of-range day by simply adding days past the first of the month
(Feb 31 becomes Mar 2 or Mar 3) — it does not clamp to the month length.
We model the proleptic Gregorian conversions with the standard civil-date
algorithms, shifted so that day 0 of the model is 1970-01-01. -/

/-- Days since 1970-01-01 of the civil date `(y, m, d)`.  `m` must already be
normalized into `1..12`; `d` may be out of range, the formula is linear in `d`
exactly like Go's date-to-absolute conversion. -/
def daysFromCivil (y m d : Int) : Int :=
  let y' := if m ≤ 2 then y - 1 else y
  let era := Int.fdiv y' 400
  let yoe := y' - era * 400
  let mp := Int.emod (m + 9) 12
  let doy := Int.fdiv (153 * mp + 2) 5 + d - 1
  let doe := yoe * 365 + Int.fdiv yoe 4 - Int.fdiv yoe 100 + doy
  era * 146097 + doe - 719468

/-- Civil date `(year, month, day)` of the day `z` counted from 1970-01-01. -/
def civilFromDays (z : Int) : Int × Int × Int :=
  let z' := z + 719468
  let era := Int.fdiv z' 146097
  let doe := z' - era * 146097
  let yoe := Int.fdiv (doe - Int.fdiv doe 1460 + Int.fdiv doe 36524 - Int.fdiv doe 146096) 365
  let y := yoe + era * 400
  let doy := doe - (365 * yoe + Int.fdiv yoe 4 - Int.fdiv yoe 100)
  let mp := Int.fdiv (5 * doy + 2) 153
  let d := doy - Int.fdiv (153 * mp + 2) 5 + 1
  let m := mp + (if mp < 10 then 3 else -9)
  (if m ≤ 2 then y + 1 else y, m, d)

/-- Days from the Go zero date 0001-01-01 to the Unix epoch 1970-01-01. -/
def goEpochShift : Int := 719162

/-- Civil date of a model instant (seconds since the Go zero time). -/
def timeCivil (t : Int) : Int × Int × Int :=
  civilFromDays (Int.fdiv t 86400 - goEpochShift)

def timeYear (t : Int) : Int := (timeCivil t).1

def timeMonth (t : Int) : Int := (timeCivil t).2.1

def timeDay (t : Int) : Int := (timeCivil t).2.2

/-- The time-of-day part (seconds) of an instant, standing in for Go's
`Hour/Minute/Second/Nanosecond` components which `time.Date` passes through. -/
def secsOfDay (t : Int) : Int := Int.emod t 86400

/-- Go `time.Date(y, m, d, hh, mm, ss, ns, loc)` restricted to one zone:
the month is normalized into `1..12` with floor semantics (the Go source uses
truncated division plus a negative fix-up, which is the same thing) and the
possibly out-of-range day is folded in linearly by `daysFromCivil`. -/
def mkGoTime (y m d secs : Int) : Int :=
  let m0 := m - 1
  let y' := y + Int.fdiv m0 12
  let m' := Int.emod m0 12 + 1
  (daysFromCivil y' m' d + goEpochShift) * 86400 + secs

/-- `addOneMonthToDate` from `pkg/models/tasks.go`:
`time.Date(d.Year(), d.Month()+1, d.Day(), d.Hour(), …, config.GetTimeZone())`. -/
def addOneMonthToDate (d : Int) : Int :=
  mkGoTime (timeYear d) (timeMonth d + 1) (timeDay d) (secsOfDay d)

/-! ## The task data model (the fields the recurrence engine touches) -/

/-- `TaskRepeatMode` from `pkg/models/tasks.go` (iota constants 0, 1, 2). -/
inductive TaskRepeatMode where
  | deflt
  | month
  | fromCurrentDate
deriving DecidableEq, Repr

/-- The fields of `models.Task` that the recurrence engine (`updateDone` and
the three `setTaskDates*` helpers) reads or writes.  Reminders are modelled by
their absolute trigger instants (`TaskReminder.Reminder`), the only reminder
field this code touches. -/
structure Task where
  done : Bool := false
  doneAt : Int := 0
  dueDate : Int := 0
  startDate : Int := 0
  endDate : Int := 0
  repeatAfter : Int := 0
  repeatMode : TaskRepeatMode := .deflt
  reminders : List Int := []
deriving DecidableEq, Repr

/-! ## The recurrence engine -/

/-- The catch-up loop used throughout `setTaskDatesDefault`:
`for !d.After(now) { d = d.Add(repeatDuration) }`.
The `0 < r` conjunct in the guard only forces termination; every call site in
the source runs under `RepeatAfter > 0`, where the guard is just `t ≤ now`. -/
def advanceAfter (r now t : Int) : Int :=
  if _h : 0 < r ∧ t ≤ now then advanceAfter r now (t + r) else t
termination_by (now + r - t).toNat
decreasing_by
  simp_wf
  omega

/-- `setTaskDatesDefault` (fixed-interval policy) from `pkg/models/tasks.go`. -/
def setTaskDatesDefault (now : Int) (oldTask newTask : Task) : Task :=
  if oldTask.repeatAfter = 0 then newTask else
  let repeatDuration := oldTask.repeatAfter
  let t1 :=
    if oldTask.dueDate ≠ 0 then
      { newTask with dueDate := advanceAfter repeatDuration now (oldTask.dueDate + repeatDuration) }
    else newTask
  let t2 :=
    { t1 with reminders :=
        oldTask.reminders.map fun rem => advanceAfter repeatDuration now (rem + repeatDuration) }
  let t3 :=
    if oldTask.startDate ≠ 0 then
      { t2 with startDate := advanceAfter repeatDuration now (oldTask.startDate + repeatDuration) }
    else t2
  let t4 :=
    if oldTask.endDate ≠ 0 then
      { t3 with endDate := advanceAfter repeatDuration now (oldTask.endDate + repeatDuration) }
    else t3
  { t4 with done := false }

/-- `setTaskDatesMonthRepeat` (monthly policy) from `pkg/models/tasks.go`. -/
def setTaskDatesMonthRepeat (oldTask newTask : Task) : Task :=
  let t1 :=
    if oldTask.dueDate ≠ 0 then
      { newTask with dueDate := addOneMonthToDate oldTask.dueDate }
    else newTask
  let t2 := { t1 with reminders := oldTask.reminders.map addOneMonthToDate }
  let t3 :=
    if oldTask.startDate ≠ 0 ∧ oldTask.endDate ≠ 0 then
      let diff := oldTask.endDate - oldTask.startDate
      let withStart := { t2 with startDate := addOneMonthToDate oldTask.startDate }
      { withStart with endDate := withStart.startDate + diff }
    else
      let ta :=
        if oldTask.startDate ≠ 0 then
          { t2 with startDate := addOneMonthToDate oldTask.startDate }
        else t2
      if oldTask.endDate ≠ 0 then
        { ta with endDate := addOneMonthToDate oldTask.endDate }
      else ta
  { t3 with done := false }

/-- `setTaskDatesFromCurrentDateRepeat` from `pkg/models/tasks.go`.  The Go
code sorts the reminder slice in place with `sort.Slice` by trigger instant
ascending; any ascending sort yields the same result here because the mapped
value only depends on the reminder itself and on the minimum. -/
def setTaskDatesFromCurrentDateRepeat (now : Int) (oldTask newTask : Task) : Task :=
  if oldTask.repeatAfter = 0 then newTask else
  let repeatDuration := oldTask.repeatAfter
  let t1 :=
    if oldTask.dueDate ≠ 0 then { newTask with dueDate := now + repeatDuration } else newTask
  let sorted := List.insertionSort (· ≤ ·) oldTask.reminders
  let t2 :=
    { t1 with reminders := sorted.map fun rem => now + (repeatDuration + (rem - sorted.headI)) }
  let t3 :=
    if oldTask.dueDate = 0 then
      if oldTask.startDate ≠ 0 ∧ oldTask.endDate ≠ 0 then
        let diff := oldTask.endDate - oldTask.startDate
        { t2 with startDate := now + repeatDuration, endDate := now + (repeatDuration + diff) }
      else
        let ta :=
          if oldTask.startDate ≠ 0 then { t2 with startDate := now + repeatDuration } else t2
        if oldTask.endDate ≠ 0 then { ta with endDate := now + repeatDuration } else ta
    else
      let ta :=
        if oldTask.startDate ≠ 0 then
          { t2 with startDate := t2.dueDate + -(oldTask.dueDate - oldTask.startDate) }
        else t2
      if oldTask.endDate ≠ 0 then
        { ta with endDate := ta.dueDate + -(oldTask.dueDate - oldTask.endDate) }
      else ta
  { t3 with done := false }

/-- `updateDone` from `pkg/models/tasks.go`.  The source reads `time.Now()`
twice (once inside the date helpers, once for `DoneAt`); both reads are
modelled by the single parameter `now`. -/
def updateDone (now : Int) (oldTask newTask : Task) : Task :=
  let t1 :=
    if !oldTask.done && newTask.done then
      let t0 :=
        match oldTask.repeatMode with
        | .month => setTaskDatesMonthRepeat oldTask newTask
        | .fromCurrentDate => setTaskDatesFromCurrentDateRepeat now oldTask newTask
        | .deflt => setTaskDatesDefault now oldTask newTask
      { t0 with doneAt := now }
    else newTask
  if oldTask.done && !t1.done then { t1 with doneAt := 0 } else t1

/-! ## Properties of the catch-up loop -/

theorem now_lt_advanceAfter (r now t : Int) (hr : 0 < r) : now < advanceAfter r now t := by
  induction t using advanceAfter.induct r now with
  | case1 t h ih =>
      rw [advanceAfter, dif_pos h]
      exact ih
  | case2 t h =>
      rw [advanceAfter, dif_neg h]
      omega

theorem advanceAfter_eq_add_mul (r now t : Int) :
    ∃ n : Nat, advanceAfter r now t = t + r * n := by
  induction t using advanceAfter.induct r now with
  | case1 t h ih =>
      obtain ⟨n, hn⟩ := ih
      refine ⟨n + 1, ?_⟩
      rw [advanceAfter, dif_pos h, hn]
      push_cast
      ring
  | case2 t h =>
      exact ⟨0, by rw [advanceAfter, dif_neg h]; simp⟩

theorem advanceAfter_le (r now t : Int) (hr : 0 < r) :
    ∀ n : Nat, now < t + r * n → advanceAfter r now t ≤ t + r * n := by
  induction t using advanceAfter.induct r now with
  | case1 t h ih =>
      intro n hn
      match n with
      | 0 => simp only [Nat.cast_zero, mul_zero, add_zero] at hn; omega
      | m + 1 =>
          rw [advanceAfter, dif_pos h]
          have hn' : now < t + r + r * m := by push_cast at hn ⊢; linarith
          calc advanceAfter r now (t + r) ≤ t + r + r * m := ih m hn'
          _ = t + r * ((m : Nat) + 1 : Nat) := by push_cast; ring
  | case2 t h =>
      intro n hn
      rw [advanceAfter, dif_neg h]
      have : (0 : Int) ≤ r * n := mul_nonneg hr.le (Int.natCast_nonneg n)
      omega

/-- The catch-up loop started at `base + r` lands exactly on `base` plus the
smallest positive multiple of `r` that is strictly after `now`. -/
theorem advanceAfter_least (r now base : Int) (hr : 0 < r) :
    ∃ k : Nat, 0 < k ∧ advanceAfter r now (base + r) = base + r * k ∧
      ∀ j : Nat, 0 < j → now < base + r * j → k ≤ j := by
  obtain ⟨n, hn⟩ := advanceAfter_eq_add_mul r now (base + r)
  refine ⟨n + 1, Nat.succ_pos n, ?_, ?_⟩
  · rw [hn]; push_cast; ring
  · intro j hj hlt
    match j with
    | 0 => omega
    | m + 1 =>
        have hlt' : now < (base + r) + r * m := by
          have : base + r * ((m : Nat) + 1 : Nat) = base + r + r * m := by push_cast; ring
          rw [this] at hlt
          exact hlt
        have hle := advanceAfter_le r now (base + r) hr m hlt'
        rw [hn] at hle
        have hnm : (n : Int) ≤ (m : Int) := le_of_mul_le_mul_left (by linarith) hr
        have : n ≤ m := by exact_mod_cast hnm
        omega

/-- Combined characterization: starting the loop at `base + r` (as all call
sites in `setTaskDatesDefault` do) yields a value strictly after `now` that is
`base` plus the smallest positive multiple of `r` landing after `now`. -/
theorem advanceAfter_catchesUp (r now base : Int) (hr : 0 < r) :
    now < advanceAfter r now (base + r) ∧
      ∃ k : Nat, 0 < k ∧ advanceAfter r now (base + r) = base + r * k ∧
        ∀ j : Nat, 0 < j → now < base + r * j → k ≤ j :=
  ⟨now_lt_advanceAfter r now (base + r) hr, advanceAfter_least r now base hr⟩

/-! ## Shape lemmas for the recurrence helpers -/

theorem setTaskDatesDefault_eq (now : Int) (o n : Task) (hr : o.repeatAfter ≠ 0) :
    setTaskDatesDefault now o n =
      { n with
        done := false
        dueDate :=
          if o.dueDate ≠ 0 then advanceAfter o.repeatAfter now (o.dueDate + o.repeatAfter)
          else n.dueDate
        startDate :=
          if o.startDate ≠ 0 then advanceAfter o.repeatAfter now (o.startDate + o.repeatAfter)
          else n.startDate
        endDate :=
          if o.endDate ≠ 0 then advanceAfter o.repeatAfter now (o.endDate + o.repeatAfter)
          else n.endDate
        reminders :=
          o.reminders.map fun rem => advanceAfter o.repeatAfter now (rem + o.repeatAfter) } := by
  unfold setTaskDatesDefault
  rw [if_neg hr]
  split_ifs <;> rfl

theorem setTaskDatesMonthRepeat_eq (o n : Task) :
    setTaskDatesMonthRepeat o n =
      { n with
        done := false
        dueDate := if o.dueDate ≠ 0 then addOneMonthToDate o.dueDate else n.dueDate
        startDate := if o.startDate ≠ 0 then addOneMonthToDate o.startDate else n.startDate
        endDate :=
          if o.startDate ≠ 0 ∧ o.endDate ≠ 0 then
            addOneMonthToDate o.startDate + (o.endDate - o.startDate)
          else if o.endDate ≠ 0 then addOneMonthToDate o.endDate else n.endDate
        reminders := o.reminders.map addOneMonthToDate } := by
  unfold setTaskDatesMonthRepeat
  split_ifs with h1 h2 h3 h4 h5 <;> first | rfl | (exfalso; tauto)

theorem setTaskDatesFromCurrentDateRepeat_eq (now : Int) (o n : Task)
    (hr : o.repeatAfter ≠ 0) (hdue : o.dueDate ≠ 0) :
    setTaskDatesFromCurrentDateRepeat now o n =
      { n with
        done := false
        dueDate := now + o.repeatAfter
        startDate :=
          if o.startDate ≠ 0 then (now + o.repeatAfter) + -(o.dueDate - o.startDate)
          else n.startDate
        endDate :=
          if o.endDate ≠ 0 then (now + o.repeatAfter) + -(o.dueDate - o.endDate)
          else n.endDate
        reminders :=
          (List.insertionSort (· ≤ ·) o.reminders).map fun rem =>
            now + (o.repeatAfter +
              (rem - (List.insertionSort (· ≤ ·) o.reminders).headI)) } := by
  unfold setTaskDatesFromCurrentDateRepeat
  rw [if_neg hr]
  dsimp only
  split_ifs <;> first | rfl | simp_all

theorem updateDone_false_to_true (now : Int) (o n : Task)
    (ho : o.done = false) (hn : n.done = true) :
    updateDone now o n =
      { (match o.repeatMode with
         | TaskRepeatMode.month => setTaskDatesMonthRepeat o n
         | TaskRepeatMode.fromCurrentDate => setTaskDatesFromCurrentDateRepeat now o n
         | TaskRepeatMode.deflt => setTaskDatesDefault now o n) with doneAt := now } := by
  unfold updateDone
  rw [ho, hn]
  simp

theorem setTaskDatesDefault_done (now : Int) (o n : Task) (hr : o.repeatAfter ≠ 0) :
    (setTaskDatesDefault now o n).done = false := by
  rw [setTaskDatesDefault_eq now o n hr]

theorem setTaskDatesMonthRepeat_done (o n : Task) :
    (setTaskDatesMonthRepeat o n).done = false := by
  rw [setTaskDatesMonthRepeat_eq o n]

theorem setTaskDatesFromCurrentDateRepeat_done (now : Int) (o n : Task)
    (hr : o.repeatAfter ≠ 0) :
    (setTaskDatesFromCurrentDateRepeat now o n).done = false := by
  unfold setTaskDatesFromCurrentDateRepeat
  rw [if_neg hr]

/-! ## Claim C1: fixed-interval recurrence -/

/-- C1: For every task with repeat policy fixed-interval, repeat interval
`r > 0` and a non-zero due date `T`, a false→true completion transition
through `updateDone` recomputes the due date as `T` plus the smallest positive
multiple of `r` that lies strictly after `now` (so the new due date is after
`now` and congruent to `T` modulo `r`); the same catch-up advance is applied
independently to a non-zero start date, a non-zero end date and every non-zero
reminder trigger, and the completion flag ends up false. -/
theorem C1_fixed_interval_catch_up (now : Int) (oldTask newTask : Task)
    (hmode : oldTask.repeatMode = TaskRepeatMode.deflt)
    (hr : 0 < oldTask.repeatAfter)
    (hdue : oldTask.dueDate ≠ 0)
    (hold : oldTask.done = false) (hnew : newTask.done = true) :
    let res := updateDone now oldTask newTask
    let r := oldTask.repeatAfter
    let catchesUp : Int → Int → Prop := fun base v =>
      now < v ∧ ∃ k : Nat, 0 < k ∧ v = base + r * k ∧
        ∀ j : Nat, 0 < j → now < base + r * j → k ≤ j
    catchesUp oldTask.dueDate res.dueDate ∧
    (oldTask.startDate ≠ 0 → catchesUp oldTask.startDate res.startDate) ∧
    (oldTask.endDate ≠ 0 → catchesUp oldTask.endDate res.endDate) ∧
    res.reminders.length = oldTask.reminders.length ∧
    (∀ i (hi : i < oldTask.reminders.length) (hi' : i < res.reminders.length),
      oldTask.reminders.get ⟨i, hi⟩ ≠ 0 →
        catchesUp (oldTask.reminders.get ⟨i, hi⟩) (res.reminders.get ⟨i, hi'⟩)) ∧
    res.done = false := by
  have hne : oldTask.repeatAfter ≠ 0 := ne_of_gt hr
  have hres : updateDone now oldTask newTask =
      { setTaskDatesDefault now oldTask newTask with doneAt := now } := by
    rw [updateDone_false_to_true now oldTask newTask hold hnew, hmode]
  dsimp only
  rw [hres, setTaskDatesDefault_eq now oldTask newTask hne]
  refine ⟨?_, ?_, ?_, by simp, ?_, rfl⟩
  · simp only [if_pos hdue]
    exact advanceAfter_catchesUp oldTask.repeatAfter now oldTask.dueDate hr
  · intro hs
    simp only [if_pos hs]
    exact advanceAfter_catchesUp oldTask.repeatAfter now oldTask.startDate hr
  · intro he
    simp only [if_pos he]
    exact advanceAfter_catchesUp oldTask.repeatAfter now oldTask.endDate hr
  · intro i hi hi' _
    simp only [List.get_eq_getElem, List.getElem_map]
    exact advanceAfter_catchesUp oldTask.repeatAfter now (oldTask.reminders.get ⟨i, hi⟩) hr

/-- Witness for C1 at a concrete input: interval 2, due date 3, start date 4,
one reminder at 1, completed at time `now = 5`. -/
theorem C1_fixed_interval_catch_up_witness :
    let oldTask : Task :=
      { done := false, dueDate := 3, startDate := 4, repeatAfter := 2,
        repeatMode := TaskRepeatMode.deflt, reminders := [1] }
    let newTask : Task := { done := true }
    let res := updateDone 5 oldTask newTask
    let catchesUp : Int → Int → Prop := fun base v =>
      (5 : Int) < v ∧ ∃ k : Nat, 0 < k ∧ v = base + 2 * k ∧
        ∀ j : Nat, 0 < j → (5 : Int) < base + 2 * j → k ≤ j
    catchesUp 3 res.dueDate ∧
    ((4 : Int) ≠ 0 → catchesUp 4 res.startDate) ∧
    ((0 : Int) ≠ 0 → catchesUp 0 res.endDate) ∧
    res.reminders.length = 1 ∧
    (∀ i (hi : i < [(1 : Int)].length) (hi' : i < res.reminders.length),
      [(1 : Int)].get ⟨i, hi⟩ ≠ 0 →
        catchesUp ([(1 : Int)].get ⟨i, hi⟩) (res.reminders.get ⟨i, hi'⟩)) ∧
    res.done = false :=
  C1_fixed_interval_catch_up 5
    { done := false, dueDate := 3, startDate := 4, repeatAfter := 2,
      repeatMode := TaskRepeatMode.deflt, reminders := [1] }
    { done := true } rfl (by decide) (by decide) rfl rfl

/-! ## Claim C2: the done/doneAt invariant after a repeat transition -/

/-- C2 counterexample: a repeating task (fixed-interval, interval 1) marked
done at time 5 ends the transition with `done = false` but `doneAt = 5 ≠ 0`:
`updateDone` stamps `DoneAt = time.Now()` after the repeat handler has forced
`Done = false`, so the claimed invariant `done = false → doneAt = 0` does not
hold after the transition. -/
theorem C2_doneAt_counterexample :
    (updateDone 5 { done := false, repeatAfter := 1 } { done := true }).done = false ∧
    (updateDone 5 { done := false, repeatAfter := 1 } { done := true }).doneAt ≠ 0 := by
  decide

/-- C2 (amended): for every task with a repeat interval greater than zero,
after a false→true completion transition under any of the three policies the
completion flag is false, but the done-timestamp is set to the transition time
`now` (not cleared to the zero time). -/
theorem C2_amended_done_false_doneAt_now (now : Int) (oldTask newTask : Task)
    (hr : 0 < oldTask.repeatAfter)
    (hold : oldTask.done = false) (hnew : newTask.done = true) :
    (updateDone now oldTask newTask).done = false ∧
    (updateDone now oldTask newTask).doneAt = now := by
  have hne : oldTask.repeatAfter ≠ 0 := ne_of_gt hr
  rw [updateDone_false_to_true now oldTask newTask hold hnew]
  cases hm : oldTask.repeatMode with
  | deflt => simp [hm, setTaskDatesDefault_done now oldTask newTask hne]
  | month => simp [hm, setTaskDatesMonthRepeat_done oldTask newTask]
  | fromCurrentDate =>
      simp [hm, setTaskDatesFromCurrentDateRepeat_done now oldTask newTask hne]

/-- Witness for the amended C2 at a concrete input. -/
theorem C2_amended_witness :
    (updateDone 7 { done := false, repeatAfter := 3, dueDate := 2 }
        { done := true }).done = false ∧
    (updateDone 7 { done := false, repeatAfter := 3, dueDate := 2 }
        { done := true }).doneAt = 7 :=
  C2_amended_done_false_doneAt_now 7
    { done := false, repeatAfter := 3, dueDate := 2 } { done := true }
    (by decide) rfl rfl

/-! ## Claim C10: the recurrence engine fires only on the false→true edge -/

/-- C10: when the stored task is already done, `updateDone` recomputes
nothing: if the incoming task is also done it is returned unchanged (due date,
start date, end date, reminders and done-timestamp keep the caller's values),
and on the true→false edge only the done-timestamp is cleared. -/
theorem C10_updateDone_frame (now : Int) (oldTask newTask : Task)
    (hold : oldTask.done = true) :
    (newTask.done = true → updateDone now oldTask newTask = newTask) ∧
    (newTask.done = false → updateDone now oldTask newTask = { newTask with doneAt := 0 }) := by
  unfold updateDone
  rw [hold]
  constructor
  · intro h
    simp [h]
  · intro h
    simp [h]

/-- Witness for C10 at concrete inputs (both edges). -/
theorem C10_updateDone_frame_witness :
    (updateDone 9 { done := true, doneAt := 4 }
        { done := true, doneAt := 4, dueDate := 11 } =
      { done := true, doneAt := 4, dueDate := 11 }) ∧
    (updateDone 9 { done := true, doneAt := 4 }
        { done := false, doneAt := 4, dueDate := 11 } =
      { done := false, doneAt := 0, dueDate := 11 }) :=
  ⟨(C10_updateDone_frame 9 { done := true, doneAt := 4 }
      { done := true, doneAt := 4, dueDate := 11 } rfl).1 rfl,
   (C10_updateDone_frame 9 { done := true, doneAt := 4 }
      { done := false, doneAt := 4, dueDate := 11 } rfl).2 rfl⟩

/-! ## Claim C3: monthly recurrence -/

/-- C3 counterexample: a task due 2024-01-31 00:00 with the monthly policy is
advanced to 2024-03-02, not to a valid day of the next month (February) and in
particular not to 2024-02-29: `addOneMonthToDate` relies on Go's `time.Date`,
which normalizes the overflowing day-of-month instead of clamping it. -/
theorem C3_month_clamp_counterexample :
    (updateDone 0
        { done := false, repeatMode := TaskRepeatMode.month,
          dueDate := mkGoTime 2024 1 31 0 }
        { done := true }).dueDate = mkGoTime 2024 3 2 0 ∧
    timeCivil (mkGoTime 2024 3 2 0) = (2024, 3, 2) ∧
    timeMonth (updateDone 0
        { done := false, repeatMode := TaskRepeatMode.month,
          dueDate := mkGoTime 2024 1 31 0 }
        { done := true }).dueDate = 3 ∧
    (updateDone 0
        { done := false, repeatMode := TaskRepeatMode.month,
          dueDate := mkGoTime 2024 1 31 0 }
        { done := true }).dueDate ≠ mkGoTime 2024 2 29 0 := by
  decide

/-- C3 (amended): for every task with the monthly policy and a non-zero due
date, a false→true completion transition advances the due date by exactly one
calendar month *in the Go `time.Date` sense* — the day-of-month is kept and an
overflow rolls into the following month (2024-01-31 becomes 2024-03-02), with
no clamping.  The same single-month advance is applied exactly once to every
reminder; the stored interval `repeatAfter` and the current time play no role
(the statement holds for every `now` and every interval, with no catch-up
loop).  When both start and end date are set, the new start date is advanced
by one month and the new end date is the new start date plus the original
start-to-end gap; otherwise each non-zero start/end date is advanced
independently.  The completion flag ends up false. -/
theorem C3_month_repeat_amended (now : Int) (oldTask newTask : Task)
    (hmode : oldTask.repeatMode = TaskRepeatMode.month)
    (hdue : oldTask.dueDate ≠ 0)
    (hold : oldTask.done = false) (hnew : newTask.done = true) :
    let res := updateDone now oldTask newTask
    res.dueDate = addOneMonthToDate oldTask.dueDate ∧
    res.reminders = oldTask.reminders.map addOneMonthToDate ∧
    (oldTask.startDate ≠ 0 ∧ oldTask.endDate ≠ 0 →
      res.startDate = addOneMonthToDate oldTask.startDate ∧
      res.endDate = res.startDate + (oldTask.endDate - oldTask.startDate)) ∧
    (oldTask.startDate ≠ 0 ∧ oldTask.endDate = 0 →
      res.startDate = addOneMonthToDate oldTask.startDate) ∧
    (oldTask.startDate = 0 ∧ oldTask.endDate ≠ 0 →
      res.endDate = addOneMonthToDate oldTask.endDate) ∧
    res.done = false := by
  have hres : updateDone now oldTask newTask =
      { setTaskDatesMonthRepeat oldTask newTask with doneAt := now } := by
    rw [updateDone_false_to_true now oldTask newTask hold hnew, hmode]
  dsimp only
  rw [hres, setTaskDatesMonthRepeat_eq oldTask newTask]
  refine ⟨by simp [if_pos hdue], rfl, ?_, ?_, ?_, rfl⟩
  · rintro ⟨hs, he⟩
    simp [if_pos hs, if_pos (And.intro hs he)]
  · rintro ⟨hs, he⟩
    simp [if_pos hs]
  · rintro ⟨hs, he⟩
    have hcond : ¬(oldTask.startDate ≠ 0 ∧ oldTask.endDate ≠ 0) := by tauto
    simp [if_neg hcond, if_pos he]

/-- Witness for the amended C3 at a concrete input: a task due 2024-01-31 with
a start/end pair and one reminder. -/
theorem C3_month_repeat_amended_witness :
    let oldTask : Task :=
      { done := false, repeatMode := TaskRepeatMode.month,
        dueDate := mkGoTime 2024 1 31 0, startDate := mkGoTime 2024 1 1 0,
        endDate := mkGoTime 2024 1 5 0, repeatAfter := 86400,
        reminders := [mkGoTime 2024 1 30 3600] }
    let newTask : Task := { done := true }
    let res := updateDone 99 oldTask newTask
    res.dueDate = addOneMonthToDate (mkGoTime 2024 1 31 0) ∧
    res.reminders = [mkGoTime 2024 1 30 3600].map addOneMonthToDate ∧
    (mkGoTime 2024 1 1 0 ≠ 0 ∧ mkGoTime 2024 1 5 0 ≠ 0 →
      res.startDate = addOneMonthToDate (mkGoTime 2024 1 1 0) ∧
      res.endDate = res.startDate + (mkGoTime 2024 1 5 0 - mkGoTime 2024 1 1 0)) ∧
    (mkGoTime 2024 1 1 0 ≠ 0 ∧ mkGoTime 2024 1 5 0 = 0 →
      res.startDate = addOneMonthToDate (mkGoTime 2024 1 1 0)) ∧
    (mkGoTime 2024 1 1 0 = 0 ∧ mkGoTime 2024 1 5 0 ≠ 0 →
      res.endDate = addOneMonthToDate (mkGoTime 2024 1 5 0)) ∧
    res.done = false :=
  C3_month_repeat_amended 99
    { done := false, repeatMode := TaskRepeatMode.month,
      dueDate := mkGoTime 2024 1 31 0, startDate := mkGoTime 2024 1 1 0,
      endDate := mkGoTime 2024 1 5 0, repeatAfter := 86400,
      reminders := [mkGoTime 2024 1 30 3600] }
    { done := true } rfl (by decide) rfl rfl

/-! ## Claim C4: from-current-date recurrence -/

/-- C4: for every task with the from-current-date policy, interval `r > 0` and
a non-zero due date, a false→true completion transition sets the new due date
to `now + r`; the reminders, sorted by trigger ascending, are each set to
`now + r` plus their offset against the earliest (so the pairwise offsets are
preserved); and each non-zero start/end date keeps its original gap to the due
date. -/
theorem C4_from_current_date (now : Int) (oldTask newTask : Task)
    (hmode : oldTask.repeatMode = TaskRepeatMode.fromCurrentDate)
    (hr : 0 < oldTask.repeatAfter)
    (hdue : oldTask.dueDate ≠ 0)
    (hold : oldTask.done = false) (hnew : newTask.done = true) :
    let res := updateDone now oldTask newTask
    let r := oldTask.repeatAfter
    let sorted := List.insertionSort (· ≤ ·) oldTask.reminders
    res.dueDate = now + r ∧
    sorted.Sorted (· ≤ ·) ∧
    sorted.Perm oldTask.reminders ∧
    res.reminders.length = sorted.length ∧
    (∀ i (hi : i < sorted.length) (hi' : i < res.reminders.length),
      res.reminders.get ⟨i, hi'⟩ = now + r + (sorted.get ⟨i, hi⟩ - sorted.headI)) ∧
    (∀ i j (hi : i < res.reminders.length) (hj : j < res.reminders.length)
        (hi2 : i < sorted.length) (hj2 : j < sorted.length),
      res.reminders.get ⟨i, hi⟩ - res.reminders.get ⟨j, hj⟩ =
        sorted.get ⟨i, hi2⟩ - sorted.get ⟨j, hj2⟩) ∧
    (oldTask.startDate ≠ 0 → res.dueDate - res.startDate = oldTask.dueDate - oldTask.startDate) ∧
    (oldTask.endDate ≠ 0 → res.dueDate - res.endDate = oldTask.dueDate - oldTask.endDate) := by
  have hne : oldTask.repeatAfter ≠ 0 := ne_of_gt hr
  have hres : updateDone now oldTask newTask =
      { setTaskDatesFromCurrentDateRepeat now oldTask newTask with doneAt := now } := by
    rw [updateDone_false_to_true now oldTask newTask hold hnew, hmode]
  dsimp only
  rw [hres, setTaskDatesFromCurrentDateRepeat_eq now oldTask newTask hne hdue]
  refine ⟨rfl, List.sorted_insertionSort _ _, List.perm_insertionSort _ _, by simp, ?_, ?_, ?_, ?_⟩
  · intro i hi hi'
    simp only [List.get_eq_getElem, List.getElem_map]
    ring
  · intro i j hi hj hi2 hj2
    simp only [List.get_eq_getElem, List.getElem_map]
    ring
  · intro hs
    simp only [if_pos hs]
    ring
  · intro he
    simp only [if_pos he]
    ring

/-- Witness for C4 at a concrete input: reminders `[10, 2]`, interval 4,
due date 5, start date 3, completed at `now = 20`. -/
theorem C4_from_current_date_witness :
    let oldTask : Task :=
      { done := false, repeatMode := TaskRepeatMode.fromCurrentDate,
        dueDate := 5, startDate := 3, repeatAfter := 4, reminders := [10, 2] }
    let newTask : Task := { done := true }
    let res := updateDone 20 oldTask newTask
    let sorted := List.insertionSort (· ≤ ·) [(10 : Int), 2]
    res.dueDate = 20 + 4 ∧
    sorted.Sorted (· ≤ ·) ∧
    sorted.Perm [(10 : Int), 2] ∧
    res.reminders.length = sorted.length ∧
    (∀ i (hi : i < sorted.length) (hi' : i < res.reminders.length),
      res.reminders.get ⟨i, hi'⟩ = 20 + 4 + (sorted.get ⟨i, hi⟩ - sorted.headI)) ∧
    (∀ i j (hi : i < res.reminders.length) (hj : j < res.reminders.length)
        (hi2 : i < sorted.length) (hj2 : j < sorted.length),
      res.reminders.get ⟨i, hi⟩ - res.reminders.get ⟨j, hj⟩ =
        sorted.get ⟨i, hi2⟩ - sorted.get ⟨j, hj2⟩) ∧
    ((3 : Int) ≠ 0 → res.dueDate - res.startDate = 5 - 3) ∧
    ((0 : Int) ≠ 0 → res.dueDate - res.endDate = 5 - 0) :=
  C4_from_current_date 20
    { done := false, repeatMode := TaskRepeatMode.fromCurrentDate,
      dueDate := 5, startDate := 3, repeatAfter := 4, reminders := [10, 2] }
    { done := true } rfl (by decide) (by decide) rfl rfl

/-! ## The position allocator (C6)

The two float64 ordering keys of a task are modelled as exact rationals: the
values the allocator computes (`2^32 / N * (i+1)`, and the `0.1` epsilon)
are about which formula is applied and how results compare, not about binary
rounding, and all the constants involved are exactly representable. -/

/-- The fields of `models.Task` that the position allocator reads or writes,
together with the row identity used by the per-id UPDATE statements. -/
structure PTask where
  id : Int
  projectID : Int := 0
  bucketID : Int := 0
  position : ℚ := 0
  kanbanPosition : ℚ := 0
deriving DecidableEq, Repr

/-- `s.Cols("position").Where("id = ?", task.ID).Update(...)`: one write-back
of a freshly computed list position, keyed by task id. -/
def applyListPositionWrite (store : List PTask) (tid : Int) (p : ℚ) : List PTask :=
  store.map fun u => if u.id = tid then { u with position := p } else u

/-- `s.Cols("kanban_position").Where("id = ?", task.ID).Update(...)`. -/
def applyKanbanPositionWrite (store : List PTask) (tid : Int) (p : ℚ) : List PTask :=
  store.map fun u => if u.id = tid then { u with kanbanPosition := p } else u

/-- `recalculateTaskPositions` from `pkg/models/tasks.go`: read all tasks of
the project ordered by position ascending, then write back
`2^32 / count * (index + 1)` one task at a time. -/
def recalculateTaskPositions (store : List PTask) (projectID : Int) : List PTask :=
  let allTasks := List.insertionSort (fun a b => a.position ≤ b.position)
    (store.filter fun u => u.projectID = projectID)
  let maxPosition : ℚ := 2 ^ 32
  allTasks.enum.foldl
    (fun st it =>
      applyListPositionWrite st it.2.id (maxPosition / allTasks.length * (it.1 + 1)))
    store

/-- `recalculateTaskKanbanPositions` from `pkg/models/tasks.go`: the same
renumbering pass over the tasks of one bucket, on the kanban axis. -/
def recalculateTaskKanbanPositions (store : List PTask) (bucketID : Int) : List PTask :=
  let allTasks := List.insertionSort (fun a b => a.kanbanPosition ≤ b.kanbanPosition)
    (store.filter fun u => u.bucketID = bucketID)
  let maxPosition : ℚ := 2 ^ 32
  allTasks.enum.foldl
    (fun st it =>
      applyKanbanPositionWrite st it.2.id (maxPosition / allTasks.length * (it.1 + 1)))
    store

/-- The tail of `Task.Update` (lines 1245–1257): after the save, a list
position below 0.1 triggers a full project rebalance and a kanban position
below 0.1 triggers a full bucket rebalance. -/
def updatePositionsPhase (store : List PTask) (saved : PTask) : List PTask :=
  let s1 :=
    if saved.position < 1 / 10 then recalculateTaskPositions store saved.projectID else store
  if saved.kanbanPosition < 1 / 10 then recalculateTaskKanbanPositions s1 saved.bucketID else s1

/-- The list position stored for row id `tid`. -/
def posOf (store : List PTask) (tid : Int) : Option ℚ :=
  (store.find? fun u => u.id = tid).map fun u => u.position

/-- The kanban position stored for row id `tid`. -/
def kanbanPosOf (store : List PTask) (tid : Int) : Option ℚ :=
  (store.find? fun u => u.id = tid).map fun u => u.kanbanPosition

/-- A sequence of keyed position writes, the shape of the write-back loop in
`recalculateTaskPositions`. -/
def foldListWrites (st : List PTask) (ws : List (Int × ℚ)) : List PTask :=
  ws.foldl (fun s w => applyListPositionWrite s w.1 w.2) st

/-- A sequence of keyed kanban-position writes. -/
def foldKanbanWrites (st : List PTask) (ws : List (Int × ℚ)) : List PTask :=
  ws.foldl (fun s w => applyKanbanPositionWrite s w.1 w.2) st

theorem applyListPositionWrite_cons (a : PTask) (l : List PTask) (tid : Int) (p : ℚ) :
    applyListPositionWrite (a :: l) tid p =
      (if a.id = tid then { a with position := p } else a) :: applyListPositionWrite l tid p :=
  rfl

theorem applyKanbanPositionWrite_cons (a : PTask) (l : List PTask) (tid : Int) (p : ℚ) :
    applyKanbanPositionWrite (a :: l) tid p =
      (if a.id = tid then { a with kanbanPosition := p } else a) ::
        applyKanbanPositionWrite l tid p :=
  rfl

theorem posOf_cons (a : PTask) (l : List PTask) (tid : Int) :
    posOf (a :: l) tid = if a.id = tid then some a.position else posOf l tid := by
  by_cases h : a.id = tid <;> simp [posOf, List.find?_cons, h]

theorem kanbanPosOf_cons (a : PTask) (l : List PTask) (tid : Int) :
    kanbanPosOf (a :: l) tid = if a.id = tid then some a.kanbanPosition else kanbanPosOf l tid := by
  by_cases h : a.id = tid <;> simp [kanbanPosOf, List.find?_cons, h]

theorem applyListPositionWrite_id_map (st : List PTask) (tid : Int) (p : ℚ) :
    ((applyListPositionWrite st tid p).map fun u => u.id) = st.map fun u => u.id := by
  unfold applyListPositionWrite
  rw [List.map_map]
  apply List.map_congr_left
  intro a _
  by_cases h : a.id = tid <;> simp [h]

theorem applyKanbanPositionWrite_id_map (st : List PTask) (tid : Int) (p : ℚ) :
    ((applyKanbanPositionWrite st tid p).map fun u => u.id) = st.map fun u => u.id := by
  unfold applyKanbanPositionWrite
  rw [List.map_map]
  apply List.map_congr_left
  intro a _
  by_cases h : a.id = tid <;> simp [h]

theorem posOf_applyListPositionWrite_hit (st : List PTask) (tid : Int) (p : ℚ)
    (hmem : tid ∈ st.map fun u => u.id) :
    posOf (applyListPositionWrite st tid p) tid = some p := by
  induction st with
  | nil => simp at hmem
  | cons a l ih =>
      rw [applyListPositionWrite_cons]
      by_cases h : a.id = tid
      · rw [if_pos h, posOf_cons]
        simp [h]
      · rw [if_neg h, posOf_cons, if_neg h]
        have hmem' : tid ∈ l.map fun u => u.id := by
          rcases List.mem_map.mp hmem with ⟨u, hu, hid⟩
          rcases List.mem_cons.mp hu with rfl | hu'
          · exact absurd hid h
          · exact List.mem_map.mpr ⟨u, hu', hid⟩
        exact ih hmem'

theorem kanbanPosOf_applyKanbanPositionWrite_hit (st : List PTask) (tid : Int) (p : ℚ)
    (hmem : tid ∈ st.map fun u => u.id) :
    kanbanPosOf (applyKanbanPositionWrite st tid p) tid = some p := by
  induction st with
  | nil => simp at hmem
  | cons a l ih =>
      rw [applyKanbanPositionWrite_cons]
      by_cases h : a.id = tid
      · rw [if_pos h, kanbanPosOf_cons]
        simp [h]
      · rw [if_neg h, kanbanPosOf_cons, if_neg h]
        have hmem' : tid ∈ l.map fun u => u.id := by
          rcases List.mem_map.mp hmem with ⟨u, hu, hid⟩
          rcases List.mem_cons.mp hu with rfl | hu'
          · exact absurd hid h
          · exact List.mem_map.mpr ⟨u, hu', hid⟩
        exact ih hmem'

theorem posOf_applyListPositionWrite_skip (st : List PTask) (tid tid' : Int) (p : ℚ)
    (h : tid' ≠ tid) :
    posOf (applyListPositionWrite st tid p) tid' = posOf st tid' := by
  induction st with
  | nil => rfl
  | cons a l ih =>
      rw [applyListPositionWrite_cons]
      by_cases ha : a.id = tid
      · have hne : ¬a.id = tid' := fun hh => h (hh ▸ ha)
        rw [if_pos ha, posOf_cons, posOf_cons, if_neg hne]
        simp only [hne, if_false]
        exact ih
      · rw [if_neg ha, posOf_cons, posOf_cons]
        by_cases ha' : a.id = tid'
        · rw [if_pos ha', if_pos ha']
        · rw [if_neg ha', if_neg ha']
          exact ih

theorem kanbanPosOf_applyKanbanPositionWrite_skip (st : List PTask) (tid tid' : Int) (p : ℚ)
    (h : tid' ≠ tid) :
    kanbanPosOf (applyKanbanPositionWrite st tid p) tid' = kanbanPosOf st tid' := by
  induction st with
  | nil => rfl
  | cons a l ih =>
      rw [applyKanbanPositionWrite_cons]
      by_cases ha : a.id = tid
      · have hne : ¬a.id = tid' := fun hh => h (hh ▸ ha)
        rw [if_pos ha, kanbanPosOf_cons, kanbanPosOf_cons, if_neg hne]
        simp only [hne, if_false]
        exact ih
      · rw [if_neg ha, kanbanPosOf_cons, kanbanPosOf_cons]
        by_cases ha' : a.id = tid'
        · rw [if_pos ha', if_pos ha']
        · rw [if_neg ha', if_neg ha']
          exact ih

theorem kanbanPosOf_applyListPositionWrite (st : List PTask) (tid tid' : Int) (p : ℚ) :
    kanbanPosOf (applyListPositionWrite st tid p) tid' = kanbanPosOf st tid' := by
  induction st with
  | nil => rfl
  | cons a l ih =>
      rw [applyListPositionWrite_cons]
      by_cases ha : a.id = tid
      · rw [if_pos ha, kanbanPosOf_cons, kanbanPosOf_cons]
        by_cases ha' : a.id = tid'
        · rw [if_pos ha', if_pos ha']
        · rw [if_neg ha', if_neg ha']
          exact ih
      · rw [if_neg ha, kanbanPosOf_cons, kanbanPosOf_cons]
        by_cases ha' : a.id = tid'
        · rw [if_pos ha', if_pos ha']
        · rw [if_neg ha', if_neg ha']
          exact ih

theorem posOf_applyKanbanPositionWrite (st : List PTask) (tid tid' : Int) (p : ℚ) :
    posOf (applyKanbanPositionWrite st tid p) tid' = posOf st tid' := by
  induction st with
  | nil => rfl
  | cons a l ih =>
      rw [applyKanbanPositionWrite_cons]
      by_cases ha : a.id = tid
      · rw [if_pos ha, posOf_cons, posOf_cons]
        by_cases ha' : a.id = tid'
        · rw [if_pos ha', if_pos ha']
        · rw [if_neg ha', if_neg ha']
          exact ih
      · rw [if_neg ha, posOf_cons, posOf_cons]
        by_cases ha' : a.id = tid'
        · rw [if_pos ha', if_pos ha']
        · rw [if_neg ha', if_neg ha']
          exact ih

theorem foldListWrites_cons (st : List PTask) (w : Int × ℚ) (ws : List (Int × ℚ)) :
    foldListWrites st (w :: ws) = foldListWrites (applyListPositionWrite st w.1 w.2) ws :=
  rfl

theorem foldKanbanWrites_cons (st : List PTask) (w : Int × ℚ) (ws : List (Int × ℚ)) :
    foldKanbanWrites st (w :: ws) = foldKanbanWrites (applyKanbanPositionWrite st w.1 w.2) ws :=
  rfl

theorem foldListWrites_id_map (ws : List (Int × ℚ)) :
    ∀ st : List PTask, ((foldListWrites st ws).map fun u => u.id) = st.map fun u => u.id := by
  induction ws with
  | nil => intro st; rfl
  | cons w ws ih =>
      intro st
      rw [foldListWrites_cons, ih, applyListPositionWrite_id_map]

theorem foldKanbanWrites_id_map (ws : List (Int × ℚ)) :
    ∀ st : List PTask, ((foldKanbanWrites st ws).map fun u => u.id) = st.map fun u => u.id := by
  induction ws with
  | nil => intro st; rfl
  | cons w ws ih =>
      intro st
      rw [foldKanbanWrites_cons, ih, applyKanbanPositionWrite_id_map]

theorem posOf_foldListWrites_skip (ws : List (Int × ℚ)) :
    ∀ (st : List PTask) (tid : Int), tid ∉ ws.map Prod.fst →
      posOf (foldListWrites st ws) tid = posOf st tid := by
  induction ws with
  | nil => intro st tid _; rfl
  | cons w ws ih =>
      intro st tid h
      rw [foldListWrites_cons, ih _ _ (fun hm => h (List.mem_cons_of_mem _ hm)),
        posOf_applyListPositionWrite_skip _ _ _ _ (fun he => h (by simp [he]))]

theorem kanbanPosOf_foldKanbanWrites_skip (ws : List (Int × ℚ)) :
    ∀ (st : List PTask) (tid : Int), tid ∉ ws.map Prod.fst →
      kanbanPosOf (foldKanbanWrites st ws) tid = kanbanPosOf st tid := by
  induction ws with
  | nil => intro st tid _; rfl
  | cons w ws ih =>
      intro st tid h
      rw [foldKanbanWrites_cons, ih _ _ (fun hm => h (List.mem_cons_of_mem _ hm)),
        kanbanPosOf_applyKanbanPositionWrite_skip _ _ _ _ (fun he => h (by simp [he]))]

theorem kanbanPosOf_foldListWrites (ws : List (Int × ℚ)) :
    ∀ (st : List PTask) (tid : Int),
      kanbanPosOf (foldListWrites st ws) tid = kanbanPosOf st tid := by
  induction ws with
  | nil => intro st tid; rfl
  | cons w ws ih =>
      intro st tid
      rw [foldListWrites_cons, ih, kanbanPosOf_applyListPositionWrite]

theorem posOf_foldKanbanWrites (ws : List (Int × ℚ)) :
    ∀ (st : List PTask) (tid : Int),
      posOf (foldKanbanWrites st ws) tid = posOf st tid := by
  induction ws with
  | nil => intro st tid; rfl
  | cons w ws ih =>
      intro st tid
      rw [foldKanbanWrites_cons, ih, posOf_applyKanbanPositionWrite]

theorem enum_writes_fst (g : Nat → ℚ) (n : Nat) (tl : List PTask) :
    (((tl.enumFrom n).map fun it => (it.2.id, g it.1)).map Prod.fst) =
      tl.map fun u => u.id := by
  rw [List.map_map]
  have : (Prod.fst ∘ fun it : Nat × PTask => (it.2.id, g it.1)) =
      (fun u : PTask => u.id) ∘ Prod.snd := rfl
  rw [this, ← List.map_map, List.enumFrom_map_snd]

/-- The write-back loop of `recalculateTaskPositions`, run over the members
`ms` with row ids all distinct and all present in the store, leaves the member
at index `i` with position `g (n + i)`. -/
theorem posOf_foldListWrites_enum (ms : List PTask) (g : Nat → ℚ) :
    ∀ (n : Nat) (st : List PTask), ((ms.map fun u => u.id).Nodup) →
      (∀ u ∈ ms, u.id ∈ st.map fun v => v.id) →
      ∀ i (hi : i < ms.length),
        posOf (foldListWrites st ((ms.enumFrom n).map fun it => (it.2.id, g it.1)))
          (ms.get ⟨i, hi⟩).id = some (g (n + i)) := by
  induction ms with
  | nil =>
      intro n st _ _ i hi
      exact absurd hi (by simp)
  | cons m tl ih =>
      intro n st hnodup hmem i hi
      rw [List.enumFrom_cons, List.map_cons, foldListWrites_cons]
      match i with
      | 0 =>
          have hnotin : m.id ∉
              (((tl.enumFrom (n + 1)).map fun it => (it.2.id, g it.1)).map Prod.fst) := by
            rw [enum_writes_fst]
            exact (List.nodup_cons.mp (by simpa using hnodup)).1
          rw [show ((m :: tl).get ⟨0, hi⟩) = m from rfl]
          rw [posOf_foldListWrites_skip _ _ _ hnotin]
          rw [posOf_applyListPositionWrite_hit _ _ _ (hmem m (List.mem_cons_self m tl))]
          rw [Nat.add_zero]
      | j + 1 =>
          have hnodup' : (tl.map fun u => u.id).Nodup :=
            (List.nodup_cons.mp (by simpa using hnodup)).2
          have hmem' : ∀ u ∈ tl, u.id ∈
              ((applyListPositionWrite st m.id (g n)).map fun v => v.id) := by
            intro u hu
            rw [applyListPositionWrite_id_map]
            exact hmem u (List.mem_cons_of_mem _ hu)
          have hj : j < tl.length := by
            have h2 : j + 1 < tl.length + 1 := by simpa using hi
            omega
          have := ih (n + 1) (applyListPositionWrite st m.id (g n)) hnodup' hmem' j hj
          rw [show ((m :: tl).get ⟨j + 1, hi⟩) = tl.get ⟨j, hj⟩ from rfl]
          have harith : n + 1 + j = n + (j + 1) := by omega
          rw [harith] at this
          exact this

/-- The kanban-axis counterpart of `posOf_foldListWrites_enum`. -/
theorem kanbanPosOf_foldKanbanWrites_enum (ms : List PTask) (g : Nat → ℚ) :
    ∀ (n : Nat) (st : List PTask), ((ms.map fun u => u.id).Nodup) →
      (∀ u ∈ ms, u.id ∈ st.map fun v => v.id) →
      ∀ i (hi : i < ms.length),
        kanbanPosOf (foldKanbanWrites st ((ms.enumFrom n).map fun it => (it.2.id, g it.1)))
          (ms.get ⟨i, hi⟩).id = some (g (n + i)) := by
  induction ms with
  | nil =>
      intro n st _ _ i hi
      exact absurd hi (by simp)
  | cons m tl ih =>
      intro n st hnodup hmem i hi
      rw [List.enumFrom_cons, List.map_cons, foldKanbanWrites_cons]
      match i with
      | 0 =>
          have hnotin : m.id ∉
              (((tl.enumFrom (n + 1)).map fun it => (it.2.id, g it.1)).map Prod.fst) := by
            rw [enum_writes_fst]
            exact (List.nodup_cons.mp (by simpa using hnodup)).1
          rw [show ((m :: tl).get ⟨0, hi⟩) = m from rfl]
          rw [kanbanPosOf_foldKanbanWrites_skip _ _ _ hnotin]
          rw [kanbanPosOf_applyKanbanPositionWrite_hit _ _ _ (hmem m (List.mem_cons_self m tl))]
          rw [Nat.add_zero]
      | j + 1 =>
          have hnodup' : (tl.map fun u => u.id).Nodup :=
            (List.nodup_cons.mp (by simpa using hnodup)).2
          have hmem' : ∀ u ∈ tl, u.id ∈
              ((applyKanbanPositionWrite st m.id (g n)).map fun v => v.id) := by
            intro u hu
            rw [applyKanbanPositionWrite_id_map]
            exact hmem u (List.mem_cons_of_mem _ hu)
          have hj : j < tl.length := by
            have h2 : j + 1 < tl.length + 1 := by simpa using hi
            omega
          have := ih (n + 1) (applyKanbanPositionWrite st m.id (g n)) hnodup' hmem' j hj
          rw [show ((m :: tl).get ⟨j + 1, hi⟩) = tl.get ⟨j, hj⟩ from rfl]
          have harith : n + 1 + j = n + (j + 1) := by omega
          rw [harith] at this
          exact this

instance : IsTotal PTask fun a b => a.position ≤ b.position :=
  ⟨fun a b => le_total a.position b.position⟩

instance : IsTrans PTask fun a b => a.position ≤ b.position :=
  ⟨fun _ _ _ hab hbc => le_trans hab hbc⟩

instance : IsTotal PTask fun a b => a.kanbanPosition ≤ b.kanbanPosition :=
  ⟨fun a b => le_total a.kanbanPosition b.kanbanPosition⟩

instance : IsTrans PTask fun a b => a.kanbanPosition ≤ b.kanbanPosition :=
  ⟨fun _ _ _ hab hbc => le_trans hab hbc⟩

theorem recalculateTaskPositions_eq_fold (store : List PTask) (projectID : Int) :
    recalculateTaskPositions store projectID =
      foldListWrites store
        (((List.insertionSort (fun a b => a.position ≤ b.position)
            (store.filter fun u => u.projectID = projectID)).enumFrom 0).map fun it =>
          (it.2.id,
            (2 : ℚ) ^ 32 / (List.insertionSort (fun a b => a.position ≤ b.position)
              (store.filter fun u => u.projectID = projectID)).length * (it.1 + 1))) := by
  simp only [recalculateTaskPositions, foldListWrites, List.enum_eq_enumFrom, List.foldl_map]

theorem recalculateTaskKanbanPositions_eq_fold (store : List PTask) (bucketID : Int) :
    recalculateTaskKanbanPositions store bucketID =
      foldKanbanWrites store
        (((List.insertionSort (fun a b => a.kanbanPosition ≤ b.kanbanPosition)
            (store.filter fun u => u.bucketID = bucketID)).enumFrom 0).map fun it =>
          (it.2.id,
            (2 : ℚ) ^ 32 / (List.insertionSort (fun a b => a.kanbanPosition ≤ b.kanbanPosition)
              (store.filter fun u => u.bucketID = bucketID)).length * (it.1 + 1))) := by
  simp only [recalculateTaskKanbanPositions, foldKanbanWrites, List.enum_eq_enumFrom,
    List.foldl_map]

/-- A kanban rebalance never touches any task's list position. -/
theorem posOf_recalculateTaskKanbanPositions (store : List PTask) (bucketID tid : Int) :
    posOf (recalculateTaskKanbanPositions store bucketID) tid = posOf store tid := by
  rw [recalculateTaskKanbanPositions_eq_fold]
  exact posOf_foldKanbanWrites _ _ _

/-- A list rebalance never touches any task's kanban position. -/
theorem kanbanPosOf_recalculateTaskPositions (store : List PTask) (projectID tid : Int) :
    kanbanPosOf (recalculateTaskPositions store projectID) tid = kanbanPosOf store tid := by
  rw [recalculateTaskPositions_eq_fold]
  exact kanbanPosOf_foldListWrites _ _ _

theorem recalculateTaskPositions_posOf (store : List PTask) (projectID : Int)
    (hnodup : (store.map fun u => u.id).Nodup) :
    ∀ i (hi : i < (List.insertionSort (fun a b => a.position ≤ b.position)
        (store.filter fun u => u.projectID = projectID)).length),
      posOf (recalculateTaskPositions store projectID)
          ((List.insertionSort (fun a b => a.position ≤ b.position)
            (store.filter fun u => u.projectID = projectID)).get ⟨i, hi⟩).id =
        some ((2 : ℚ) ^ 32 / (List.insertionSort (fun a b => a.position ≤ b.position)
            (store.filter fun u => u.projectID = projectID)).length * (i + 1)) := by
  intro i hi
  have hperm : (List.insertionSort (fun a b => a.position ≤ b.position)
      (store.filter fun u => u.projectID = projectID)).Perm
        (store.filter fun u => u.projectID = projectID) :=
    List.perm_insertionSort _ _
  have hnodupM : ((List.insertionSort (fun a b => a.position ≤ b.position)
      (store.filter fun u => u.projectID = projectID)).map fun u => u.id).Nodup := by
    have hsub : (((store.filter fun u => u.projectID = projectID)).map fun u => u.id).Sublist
        (store.map fun u => u.id) := (List.filter_sublist store).map _
    exact ((hperm.map _).nodup_iff).mpr (hsub.nodup hnodup)
  have hmem : ∀ u ∈ List.insertionSort (fun a b => a.position ≤ b.position)
      (store.filter fun u => u.projectID = projectID), u.id ∈ store.map fun v => v.id := by
    intro u hu
    exact List.mem_map_of_mem _ ((List.filter_sublist store).subset (hperm.subset hu))
  have hfold := posOf_foldListWrites_enum
    (List.insertionSort (fun a b => a.position ≤ b.position)
      (store.filter fun u => u.projectID = projectID))
    (fun k => (2 : ℚ) ^ 32 / (List.insertionSort (fun a b => a.position ≤ b.position)
      (store.filter fun u => u.projectID = projectID)).length * (k + 1))
    0 store hnodupM hmem i hi
  simp only [Nat.zero_add] at hfold
  rw [recalculateTaskPositions_eq_fold]
  exact hfold

theorem recalculateTaskKanbanPositions_kanbanPosOf (store : List PTask) (bucketID : Int)
    (hnodup : (store.map fun u => u.id).Nodup) :
    ∀ i (hi : i < (List.insertionSort (fun a b => a.kanbanPosition ≤ b.kanbanPosition)
        (store.filter fun u => u.bucketID = bucketID)).length),
      kanbanPosOf (recalculateTaskKanbanPositions store bucketID)
          ((List.insertionSort (fun a b => a.kanbanPosition ≤ b.kanbanPosition)
            (store.filter fun u => u.bucketID = bucketID)).get ⟨i, hi⟩).id =
        some ((2 : ℚ) ^ 32 /
          (List.insertionSort (fun a b => a.kanbanPosition ≤ b.kanbanPosition)
            (store.filter fun u => u.bucketID = bucketID)).length * (i + 1)) := by
  intro i hi
  have hperm : (List.insertionSort (fun a b => a.kanbanPosition ≤ b.kanbanPosition)
      (store.filter fun u => u.bucketID = bucketID)).Perm
        (store.filter fun u => u.bucketID = bucketID) :=
    List.perm_insertionSort _ _
  have hnodupM : ((List.insertionSort (fun a b => a.kanbanPosition ≤ b.kanbanPosition)
      (store.filter fun u => u.bucketID = bucketID)).map fun u => u.id).Nodup := by
    have hsub : (((store.filter fun u => u.bucketID = bucketID)).map fun u => u.id).Sublist
        (store.map fun u => u.id) := (List.filter_sublist store).map _
    exact ((hperm.map _).nodup_iff).mpr (hsub.nodup hnodup)
  have hmem : ∀ u ∈ List.insertionSort (fun a b => a.kanbanPosition ≤ b.kanbanPosition)
      (store.filter fun u => u.bucketID = bucketID), u.id ∈ store.map fun v => v.id := by
    intro u hu
    exact List.mem_map_of_mem _ ((List.filter_sublist store).subset (hperm.subset hu))
  have hfold := kanbanPosOf_foldKanbanWrites_enum
    (List.insertionSort (fun a b => a.kanbanPosition ≤ b.kanbanPosition)
      (store.filter fun u => u.bucketID = bucketID))
    (fun k => (2 : ℚ) ^ 32 /
      (List.insertionSort (fun a b => a.kanbanPosition ≤ b.kanbanPosition)
        (store.filter fun u => u.bucketID = bucketID)).length * (k + 1))
    0 store hnodupM hmem i hi
  simp only [Nat.zero_add] at hfold
  rw [recalculateTaskKanbanPositions_eq_fold]
  exact hfold

/-! ## Claim C6 -/

/-- C6: whenever a save leaves a task's list position below 0.1, `Task.Update`
rebalances the whole container: the members, read in ascending order of their
current position, are renumbered so that the member at 0-based index `i` gets
position `2^32 / N * (i + 1)` — evenly spaced, strictly increasing, preserving
the prior relative order.  A kanban position below 0.1 triggers the same rule
on the board axis over the task's bucket, and the two axes never touch each
other's positions. -/
theorem C6_position_rebalance (store : List PTask) (saved : PTask)
    (hnodup : (store.map fun u => u.id).Nodup) :
    let phase := updatePositionsPhase store saved
    let members := List.insertionSort (fun a b => a.position ≤ b.position)
      (store.filter fun u => u.projectID = saved.projectID)
    let buckMembers := List.insertionSort (fun a b => a.kanbanPosition ≤ b.kanbanPosition)
      (store.filter fun u => u.bucketID = saved.bucketID)
    (saved.position < 1 / 10 →
      ∀ i (hi : i < members.length),
        posOf phase (members.get ⟨i, hi⟩).id =
          some ((2 : ℚ) ^ 32 / members.length * (i + 1))) ∧
    members.Sorted (fun a b => a.position ≤ b.position) ∧
    (∀ i j : Nat, 0 < members.length → i < j →
      (2 : ℚ) ^ 32 / members.length * (i + 1) < (2 : ℚ) ^ 32 / members.length * (j + 1)) ∧
    (∀ i : Nat,
      (2 : ℚ) ^ 32 / members.length * ((i + 1) + 1) -
        (2 : ℚ) ^ 32 / members.length * (i + 1) = (2 : ℚ) ^ 32 / members.length) ∧
    (¬saved.position < 1 / 10 → saved.kanbanPosition < 1 / 10 →
      ∀ i (hi : i < buckMembers.length),
        kanbanPosOf phase (buckMembers.get ⟨i, hi⟩).id =
          some ((2 : ℚ) ^ 32 / buckMembers.length * (i + 1))) ∧
    (∀ tid, posOf (recalculateTaskKanbanPositions store saved.bucketID) tid = posOf store tid) ∧
    (∀ tid, kanbanPosOf (recalculateTaskPositions store saved.projectID) tid =
      kanbanPosOf store tid) := by
  dsimp only
  refine ⟨?_, List.sorted_insertionSort _ _, ?_, ?_, ?_,
    fun tid => posOf_recalculateTaskKanbanPositions store saved.bucketID tid,
    fun tid => kanbanPosOf_recalculateTaskPositions store saved.projectID tid⟩
  · intro htrig i hi
    unfold updatePositionsPhase
    rw [if_pos htrig]
    by_cases hk : saved.kanbanPosition < 1 / 10
    · rw [if_pos hk]
      rw [posOf_recalculateTaskKanbanPositions]
      exact recalculateTaskPositions_posOf store saved.projectID hnodup i hi
    · rw [if_neg hk]
      exact recalculateTaskPositions_posOf store saved.projectID hnodup i hi
  · intro i j hn hij
    have hpos : (0 : ℚ) < (2 : ℚ) ^ 32 /
        (List.insertionSort (fun a b => a.position ≤ b.position)
          (store.filter fun u => u.projectID = saved.projectID)).length := by
      apply div_pos (by norm_num)
      exact_mod_cast hn
    have hlt : ((i : ℚ) + 1) < ((j : ℚ) + 1) := by
      have : (i : ℚ) < (j : ℚ) := by exact_mod_cast hij
      linarith
    exact mul_lt_mul_of_pos_left hlt hpos
  · intro i
    ring
  · intro hnp hk i hi
    unfold updatePositionsPhase
    rw [if_neg hnp, if_pos hk]
    exact recalculateTaskKanbanPositions_kanbanPosOf store saved.bucketID hnodup i hi

/-- Witness for C6 at a concrete store: three tasks in project 1, the saved
task's list position forced to 1/20 < 0.1 and its kanban position at 1. -/
theorem C6_position_rebalance_witness :
    let store : List PTask :=
      [{ id := 1, projectID := 1, bucketID := 4, position := 1 / 20, kanbanPosition := 1 },
       { id := 2, projectID := 1, bucketID := 4, position := 3, kanbanPosition := 2 },
       { id := 3, projectID := 1, bucketID := 5, position := 7, kanbanPosition := 3 }]
    let saved : PTask :=
      { id := 1, projectID := 1, bucketID := 4, position := 1 / 20, kanbanPosition := 1 }
    let phase := updatePositionsPhase store saved
    let members := List.insertionSort (fun a b => a.position ≤ b.position)
      (store.filter fun u => u.projectID = saved.projectID)
    let buckMembers := List.insertionSort (fun a b => a.kanbanPosition ≤ b.kanbanPosition)
      (store.filter fun u => u.bucketID = saved.bucketID)
    (saved.position < 1 / 10 →
      ∀ i (hi : i < members.length),
        posOf phase (members.get ⟨i, hi⟩).id =
          some ((2 : ℚ) ^ 32 / members.length * (i + 1))) ∧
    members.Sorted (fun a b => a.position ≤ b.position) ∧
    (∀ i j : Nat, 0 < members.length → i < j →
      (2 : ℚ) ^ 32 / members.length * (i + 1) < (2 : ℚ) ^ 32 / members.length * (j + 1)) ∧
    (∀ i : Nat,
      (2 : ℚ) ^ 32 / members.length * ((i + 1) + 1) -
        (2 : ℚ) ^ 32 / members.length * (i + 1) = (2 : ℚ) ^ 32 / members.length) ∧
    (¬saved.position < 1 / 10 → saved.kanbanPosition < 1 / 10 →
      ∀ i (hi : i < buckMembers.length),
        kanbanPosOf phase (buckMembers.get ⟨i, hi⟩).id =
          some ((2 : ℚ) ^ 32 / buckMembers.length * (i + 1))) ∧
    (∀ tid, posOf (recalculateTaskKanbanPositions store saved.bucketID) tid = posOf store tid) ∧
    (∀ tid, kanbanPosOf (recalculateTaskPositions store saved.projectID) tid =
      kanbanPosOf store tid) :=
  C6_position_rebalance
    [{ id := 1, projectID := 1, bucketID := 4, position := 1 / 20, kanbanPosition := 1 },
     { id := 2, projectID := 1, bucketID := 4, position := 3, kanbanPosition := 2 },
     { id := 3, projectID := 1, bucketID := 5, position := 7, kanbanPosition := 3 }]
    { id := 1, projectID := 1, bucketID := 4, position := 1 / 20, kanbanPosition := 1 }
    (by decide)

/-! ## Kanban buckets and the bucket limit (C5) -/

/-- `models.Bucket`, restricted to the fields `setTaskBucket` reads. -/
structure Bucket where
  id : Int
  projectID : Int
  limit : Int := 0
  isDoneBucket : Bool := false
deriving DecidableEq, Repr

/-- The fields of `models.Task` read or written by `setTaskBucket` and by the
bucket phase of `Task.Update`. -/
structure BTask where
  id : Int
  projectID : Int := 0
  bucketID : Int := 0
  done : Bool := false
  repeatAfter : Int := 0
deriving DecidableEq, Repr

inductive BucketErr where
  | bucketDoesNotBelongToProject (projectID bucketID : Int)
  | bucketLimitExceeded (taskID bucketID limit : Int)
  | bucketDoesNotExist (bucketID : Int)
deriving DecidableEq, Repr

/-- The persistence-layer lookups made by `setTaskBucket` and
`checkBucketLimit` (the spec's §6 treats the store as an external
collaborator, so they are supplied as oracles): the project's done bucket
(`getDoneBucketForProject`, nil-able), the project's default bucket
(`getDefaultBucket`), a bucket by id (`getBucketByID`), and the number of
tasks currently in a bucket (the `Count` query of `checkBucketLimit`). -/
structure BucketEnv where
  getDoneBucketForProject : Int → Option Bucket
  getDefaultBucket : Int → Bucket
  getBucketByID : Int → Option Bucket
  countTasksInBucket : Int → Int

/-- `checkBucketAndTaskBelongToSameProject` from `pkg/models/tasks.go`. -/
def checkBucketAndTaskBelongToSameProject (fullTask : BTask) (bucket : Bucket) :
    Except BucketErr Unit :=
  if fullTask.projectID ≠ bucket.projectID then
    .error (.bucketDoesNotBelongToProject fullTask.projectID fullTask.bucketID)
  else .ok ()

/-- `checkBucketLimit` from `pkg/models/tasks.go`: with a positive limit, the
move fails as soon as the bucket already holds at least `limit` tasks. -/
def checkBucketLimit (env : BucketEnv) (t : BTask) (bucket : Bucket) : Except BucketErr Unit :=
  if bucket.limit > 0 then
    if env.countTasksInBucket bucket.id ≥ bucket.limit then
      .error (.bucketLimitExceeded t.id bucket.id bucket.limit)
    else .ok ()
  else .ok ()

/-- `setTaskBucket` from `pkg/models/tasks.go`.  Note that in the source the
done-bucket branch shadows the outer `bucket` variable, so the bucket used for
all later checks is always refetched by id (or the default bucket). -/
def setTaskBucket (env : BucketEnv) (task0 : BTask) (originalTask : Option BTask)
    (doCheckBucketLimit : Bool) : Except BucketErr (Bucket × BTask) :=
  let originalDoneFalse : Bool :=
    match originalTask with
    | some ot => !ot.done
    | none => false
  let originalBucketID : Option Int := originalTask.map fun ot => ot.bucketID
  let originalProjectID : Option Int := originalTask.map fun ot => ot.projectID
  let task1 : BTask :=
    if task0.done = true ∧ originalDoneFalse = true then
      match env.getDoneBucketForProject task0.projectID with
      | some b => { task0 with bucketID := b.id }
      | none => task0
    else task0
  let task2 : BTask :=
    match originalBucketID with
    | some otb =>
        if task1.bucketID = 0 ∧ otb ≠ 0 then { task1 with bucketID := otb } else task1
    | none => task1
  let movedBetweenProjects : Bool :=
    match originalProjectID with
    | some otp => decide (task2.projectID ≠ 0) && decide (otp ≠ task2.projectID)
    | none => false
  let defaulted : Option Bucket × BTask :=
    if task2.bucketID = 0 ∨ movedBetweenProjects = true then
      let b := env.getDefaultBucket task2.projectID
      (some b, { task2 with bucketID := b.id })
    else (none, task2)
  let task3 := defaulted.2
  let bucketFetched : Except BucketErr Bucket :=
    match defaulted.1 with
    | some b => .ok b
    | none =>
        match env.getBucketByID task3.bucketID with
        | some b => .ok b
        | none => .error (.bucketDoesNotExist task3.bucketID)
  match bucketFetched with
  | .error e => .error e
  | .ok bucket =>
      match checkBucketAndTaskBelongToSameProject task3 bucket with
      | .error e => .error e
      | .ok _ =>
          match (if doCheckBucketLimit then checkBucketLimit env task3 bucket else .ok ()) with
          | .error e => .error e
          | .ok _ =>
              let task4 :=
                if bucket.isDoneBucket = true ∧ originalDoneFalse = true then
                  { task3 with done := true }
                else task3
              .ok (bucket, task4)

/-- The bucket phase of `Task.Update` (lines 1065–1075): the limit check is
requested exactly when the incoming task names a bucket different from the
stored one, and a repeating task landing in the done bucket is pulled back to
its stored bucket and marked done so that `updateDone` reschedules it. -/
def taskUpdateBucketPhase (env : BucketEnv) (t ot : BTask) :
    Except BucketErr (Bucket × BTask) :=
  match setTaskBucket env t (some ot) (t.bucketID != 0 && t.bucketID != ot.bucketID) with
  | .error e => .error e
  | .ok (targetBucket, t1) =>
      let t2 :=
        if targetBucket.isDoneBucket = true ∧ 0 < t1.repeatAfter then
          { t1 with done := true, bucketID := ot.bucketID }
        else t1
      .ok (targetBucket, t2)

/-- C5: moving a task into a bucket with a positive task-count limit that
already holds at least `limit` tasks fails with bucket-limit-exceeded, while
the same save succeeds when it is a pure reorder within the task's stored
bucket — `Task.Update` requests the limit check only when the requested bucket
differs from the stored one. -/
theorem C5_bucket_limit (env : BucketEnv) (t ot : BTask) (B : Bucket)
    (hfetch : env.getBucketByID t.bucketID = some B)
    (hb : t.bucketID ≠ 0)
    (hdone : t.done = false)
    (hproj : ot.projectID = t.projectID)
    (hsame : B.projectID = t.projectID)
    (hlim : 0 < B.limit)
    (hcount : B.limit ≤ env.countTasksInBucket B.id)
    (hnotdone : B.isDoneBucket = false) :
    (t.bucketID ≠ ot.bucketID →
      taskUpdateBucketPhase env t ot = .error (.bucketLimitExceeded t.id B.id B.limit)) ∧
    (t.bucketID = ot.bucketID → taskUpdateBucketPhase env t ot = .ok (B, t)) := by
  refine ⟨fun hmove => ?_, fun hmove => ?_⟩
  · simp [taskUpdateBucketPhase, setTaskBucket, checkBucketAndTaskBelongToSameProject,
      checkBucketLimit, hdone, hb, hproj, hsame, hfetch, hlim, hcount, hnotdone, hmove]
  · have hb2 : ot.bucketID ≠ 0 := hmove ▸ hb
    have hfetch2 : env.getBucketByID ot.bucketID = some B := hmove ▸ hfetch
    simp [taskUpdateBucketPhase, setTaskBucket, checkBucketAndTaskBelongToSameProject,
      checkBucketLimit, hdone, hb, hb2, hproj, hsame, hfetch, hfetch2, hlim, hcount,
      hnotdone, hmove]

/-- Witness for C5 at a concrete store: bucket 2 of project 7 has limit 2 and
already holds 2 tasks; moving task 10 from bucket 3 into bucket 2 fails, while
saving it with its stored bucket 2 (pure reorder) succeeds. -/
theorem C5_bucket_limit_witness :
    let B : Bucket := { id := 2, projectID := 7, limit := 2 }
    let env : BucketEnv :=
      { getDoneBucketForProject := fun _ => none
        getDefaultBucket := fun _ => { id := 1, projectID := 7 }
        getBucketByID := fun i =>
          if i = 2 then some { id := 2, projectID := 7, limit := 2 }
          else if i = 3 then some { id := 3, projectID := 7 } else none
        countTasksInBucket := fun _ => 2 }
    let t : BTask := { id := 10, projectID := 7, bucketID := 2 }
    taskUpdateBucketPhase env t { id := 10, projectID := 7, bucketID := 3 } =
      .error (.bucketLimitExceeded 10 2 2) ∧
    taskUpdateBucketPhase env t { id := 10, projectID := 7, bucketID := 2 } = .ok (B, t) :=
  ⟨(C5_bucket_limit
      { getDoneBucketForProject := fun _ => none
        getDefaultBucket := fun _ => { id := 1, projectID := 7 }
        getBucketByID := fun i =>
          if i = 2 then some { id := 2, projectID := 7, limit := 2 }
          else if i = 3 then some { id := 3, projectID := 7 } else none
        countTasksInBucket := fun _ => 2 }
      { id := 10, projectID := 7, bucketID := 2 }
      { id := 10, projectID := 7, bucketID := 3 }
      { id := 2, projectID := 7, limit := 2 }
      (by decide) (by decide) rfl rfl rfl (by decide) (by decide) rfl).1 (by decide),
   (C5_bucket_limit
      { getDoneBucketForProject := fun _ => none
        getDefaultBucket := fun _ => { id := 1, projectID := 7 }
        getBucketByID := fun i =>
          if i = 2 then some { id := 2, projectID := 7, limit := 2 }
          else if i = 3 then some { id := 3, projectID := 7 } else none
        countTasksInBucket := fun _ => 2 }
      { id := 10, projectID := 7, bucketID := 2 }
      { id := 10, projectID := 7, bucketID := 2 }
      { id := 2, projectID := 7, limit := 2 }
      (by decide) (by decide) rfl rfl rfl (by decide) (by decide) rfl).2 rfl⟩

/-! ## The condition compiler (C7)

`getFilterCond` lowers one `taskFilter` leaf to an `xorm/builder` condition.
We mirror the conditions it actually builds as a small syntax (`Cond`) and
give it the obvious SQL evaluation semantics over rows with nullable columns
(a comparison with a NULL column never matches; `IsNull` matches exactly the
NULL columns).  The variadic `builder.Or(a, b, c)` is associated to the left
as nested binary disjunctions, which has the same evaluation. -/

/-- A native filter value (the dynamic `interface{}` carried by `taskFilter`),
restricted to the types `getValueForField` can produce.  Times are instants as
elsewhere in this file; float64 values are modelled as exact rationals. -/
inductive FVal where
  | int (i : Int)
  | float (q : ℚ)
  | str (s : String)
  | bool (b : Bool)
  | time (t : Int)
deriving DecidableEq, Repr

/-- The shapes a `taskFilter.value` can take: one native value, a coerced
value list (`in` comparator), or the raw username strings of an `assignees`
filter. -/
inductive FilterValueL where
  | single (v : FVal)
  | vals (l : List FVal)
  | strVals (l : List String)
deriving DecidableEq, Repr

/-- `taskFilterComparator` from `task_collection_filter.go`. -/
inductive TaskFilterComparator where
  | invalid
  | equals
  | greater
  | greaterEquals
  | less
  | lessEquals
  | notEquals
  | like
  | isIn
deriving DecidableEq, Repr

inductive CmpOp where
  | eq
  | neq
  | gt
  | gte
  | lt
  | lte
deriving DecidableEq, Repr

/-- The `builder.Cond` values `getFilterCond` constructs. -/
inductive Cond where
  | empty
  | cmp (op : CmpOp) (field : String) (v : FilterValueL)
  | like (field : String) (pattern : String)
  | inList (field : String) (v : FilterValueL)
  | isNull (field : String)
  | or (a b : Cond)
deriving DecidableEq, Repr

/-- The leaf form of `taskFilter` as seen by the condition compiler. -/
structure TaskFilterL where
  field : String
  value : FilterValueL
  comparator : TaskFilterComparator
  isNumeric : Bool := false
deriving DecidableEq, Repr

inductive FilterCondErr where
  | invalidTaskFilterValue (field : String) (value : FilterValueL)
deriving DecidableEq, Repr

/-- The comparator switch of `getFilterCond` (building the bare comparison
condition, before any null handling). -/
def getFilterCondBase (f : TaskFilterL) : Except FilterCondErr Cond :=
  let field := "`" ++ f.field ++ "`"
  match f.comparator with
  | .equals => .ok (.cmp .eq field f.value)
  | .notEquals => .ok (.cmp .neq field f.value)
  | .greater => .ok (.cmp .gt field f.value)
  | .greaterEquals => .ok (.cmp .gte field f.value)
  | .less => .ok (.cmp .lt field f.value)
  | .lessEquals => .ok (.cmp .lte field f.value)
  | .like =>
      match f.value with
      | .single (.str val) => .ok (.like field ("%" ++ val ++ "%"))
      | _ => .error (.invalidTaskFilterValue field f.value)
  | .isIn => .ok (.inList field f.value)
  | .invalid => .ok .empty

/-- `getFilterCond` from `pkg/models/tasks.go`: the compiled comparison, OR'd
with `field IS NULL` when `includeNulls` is set, and additionally OR'd (by the
variadic three-argument `builder.Or`) with another `IS NULL` and with
`field = 0` when the term is numeric. -/
def getFilterCond (f : TaskFilterL) (includeNulls : Bool) : Except FilterCondErr Cond :=
  let field := "`" ++ f.field ++ "`"
  match getFilterCondBase f with
  | .error e => .error e
  | .ok cond =>
      if includeNulls then
        let c1 := Cond.or cond (.isNull field)
        if f.isNumeric then
          .ok (.or (.or c1 (.isNull field)) (.cmp .eq field (.single (.int 0))))
        else .ok c1
      else .ok cond

/-- The compile loop of `getRawTasksForProjects` over direct-field terms:
each filter is compiled with the same include-nulls flag, aborting on the
first error. -/
def compileFilters (fs : List TaskFilterL) (includeNulls : Bool) :
    Except FilterCondErr (List Cond) :=
  match fs with
  | [] => .ok []
  | f :: rest =>
      match getFilterCond f includeNulls with
      | .error e => .error e
      | .ok c =>
          match compileFilters rest includeNulls with
          | .error e => .error e
          | .ok cs => .ok (c :: cs)

/-- A stored row as the compiled predicate sees it: every column either holds
a native value or is SQL NULL. -/
def Row := String → Option FVal

/-- SQL LIKE with `%` wildcards (the only metacharacter in the patterns the
compiler builds). -/
def likeMatch (p s : List Char) : Bool :=
  match p, s with
  | [], [] => true
  | [], _ :: _ => false
  | c :: ps, s =>
      if c = '%' then
        likeMatch ps s ||
          (match s with
           | [] => false
           | _ :: s' => likeMatch (c :: ps) s')
      else
        match s with
        | [] => false
        | d :: s' => c == d && likeMatch ps s'
termination_by (p.length, s.length)

/-- Three-way comparison of two native values of the same type (SQL comparison
of a typed column with a typed literal); values of different types never
compare. -/
def cmpFVal : FVal → FVal → Option Ordering
  | .int a, .int b => some (if a < b then .lt else if a = b then .eq else .gt)
  | .float a, .float b => some (if a < b then .lt else if a = b then .eq else .gt)
  | .str a, .str b => some (if a < b then .lt else if a = b then .eq else .gt)
  | .bool a, .bool b => some (if a = b then .eq else if a = false then .lt else .gt)
  | .time a, .time b => some (if a < b then .lt else if a = b then .eq else .gt)
  | _, _ => none

def evalCmp (op : CmpOp) (w : FVal) (v : FilterValueL) : Bool :=
  match v with
  | .single fv =>
      match op with
      | .eq => w == fv
      | .neq => w != fv
      | .gt => cmpFVal w fv == some .gt
      | .gte => cmpFVal w fv == some .gt || cmpFVal w fv == some .eq
      | .lt => cmpFVal w fv == some .lt
      | .lte => cmpFVal w fv == some .lt || cmpFVal w fv == some .eq
  | _ => false

/-- Evaluation of a compiled condition against one row. -/
def evalCond (row : Row) : Cond → Bool
  | .empty => false
  | .isNull f => (row f).isNone
  | .cmp op f v =>
      match row f with
      | none => false
      | some w => evalCmp op w v
  | .like f pat =>
      match row f with
      | some (.str s) => likeMatch pat.data s.data
      | _ => false
  | .inList f v =>
      match row f with
      | none => false
      | some w =>
          match v with
          | .single fv => w == fv
          | .vals l => l.contains w
          | .strVals l =>
              match w with
              | .str s => l.contains s
              | _ => false
  | .or a b => evalCond row a || evalCond row b

/-- `builder.And(filters...)`: the uniform AND concatenation of all compiled
conditions. -/
def evalAndConds (row : Row) (cs : List Cond) : Bool := cs.all (evalCond row)

theorem evalCond_or (row : Row) (a b : Cond) :
    evalCond row (.or a b) = (evalCond row a || evalCond row b) := rfl

theorem evalCond_isNull (row : Row) (f : String) :
    evalCond row (.isNull f) = (row f).isNone := rfl

/-- C7: for every filter term, the predicate compiled with include-nulls set
evaluates exactly like the plain predicate OR'd with "field is null", further
OR'd with "field equals zero" when the term is numeric; consequently a
conjunction of AND-joined numeric-equality terms matches, with
include-nulls=true, a superset of the rows it matches with
include-nulls=false. -/
theorem C7_include_nulls :
    (∀ (f : TaskFilterL) (row : Row) (c0 c1 : Cond),
      getFilterCond f false = .ok c0 → getFilterCond f true = .ok c1 →
      evalCond row c1 =
        (evalCond row c0 || (row ("`" ++ f.field ++ "`")).isNone ||
          (f.isNumeric &&
            evalCond row (.cmp .eq ("`" ++ f.field ++ "`") (.single (.int 0)))))) ∧
    (∀ (fs : List TaskFilterL) (row : Row) (l0 l1 : List Cond),
      (∀ f ∈ fs, f.comparator = TaskFilterComparator.equals ∧ f.isNumeric = true) →
      compileFilters fs false = .ok l0 → compileFilters fs true = .ok l1 →
      evalAndConds row l0 = true → evalAndConds row l1 = true) := by
  have hpart1 : ∀ (f : TaskFilterL) (row : Row) (c0 c1 : Cond),
      getFilterCond f false = .ok c0 → getFilterCond f true = .ok c1 →
      evalCond row c1 =
        (evalCond row c0 || (row ("`" ++ f.field ++ "`")).isNone ||
          (f.isNumeric &&
            evalCond row (.cmp .eq ("`" ++ f.field ++ "`") (.single (.int 0))))) := by
    intro f row c0 c1 h0 h1
    unfold getFilterCond at h0 h1
    cases hb : getFilterCondBase f with
    | error e => rw [hb] at h0; exact absurd h0 (by simp)
    | ok b =>
        rw [hb] at h0 h1
        simp only [if_neg (by simp : ¬(false = true)), Except.ok.injEq] at h0
        cases hnum : f.isNumeric with
        | false =>
            rw [hnum] at h1
            simp at h1
            subst h0 h1
            cases hx : evalCond row b <;>
              cases hy : (row ("`" ++ f.field ++ "`")).isNone <;>
                simp [evalCond_or, evalCond_isNull, hx, hy]
        | true =>
            rw [hnum] at h1
            simp at h1
            subst h0 h1
            cases hx : evalCond row b <;>
              cases hy : (row ("`" ++ f.field ++ "`")).isNone <;>
                cases hz : evalCond row
                  (.cmp .eq ("`" ++ f.field ++ "`") (.single (.int 0))) <;>
                  simp [evalCond_or, evalCond_isNull, hx, hy, hz]
  refine ⟨hpart1, ?_⟩
  intro fs
  induction fs with
  | nil =>
      intro row l0 l1 _ h0 h1 _
      simp only [compileFilters, Except.ok.injEq] at h0 h1
      subst h0 h1
      rfl
  | cons f rest ih =>
      intro row l0 l1 hall h0 h1 hev
      have hf := hall f (List.mem_cons_self f rest)
      unfold compileFilters at h0 h1
      cases hc0 : getFilterCond f false with
      | error e => rw [hc0] at h0; exact absurd h0 (by simp)
      | ok c0 =>
          cases hc1 : getFilterCond f true with
          | error e => rw [hc1] at h1; exact absurd h1 (by simp)
          | ok c1 =>
              rw [hc0] at h0
              rw [hc1] at h1
              cases hr0 : compileFilters rest false with
              | error e => rw [hr0] at h0; exact absurd h0 (by simp)
              | ok cs0 =>
                  cases hr1 : compileFilters rest true with
                  | error e => rw [hr1] at h1; exact absurd h1 (by simp)
                  | ok cs1 =>
                      rw [hr0] at h0
                      rw [hr1] at h1
                      simp only [Except.ok.injEq] at h0 h1
                      subst h0 h1
                      simp only [evalAndConds, List.all_cons, Bool.and_eq_true] at hev ⊢
                      refine ⟨?_, ih row cs0 cs1
                        (fun g hg => hall g (List.mem_cons_of_mem f hg)) hr0 hr1 hev.2⟩
                      rw [hpart1 f row c0 c1 hc0 hc1, hev.1]
                      rfl

/-- Witness for C7 at a concrete term and row: `priority = 3` (numeric) on a
row whose `priority` column is NULL. -/
theorem C7_include_nulls_witness :
    let row : Row := fun _ => none
    let c0 : Cond := .cmp .eq "`priority`" (.single (.int 3))
    let c1 : Cond :=
      .or (.or (.or c0 (.isNull "`priority`")) (.isNull "`priority`"))
        (.cmp .eq "`priority`" (.single (.int 0)))
    (evalCond row c1 =
      (evalCond row c0 || (row ("`" ++ "priority" ++ "`")).isNone ||
        (true && evalCond row (.cmp .eq ("`" ++ "priority" ++ "`") (.single (.int 0)))))) ∧
    (evalAndConds (fun _ => some (.int 0)) [c0] = true →
      evalAndConds (fun _ => some (.int 0)) [c1] = true) :=
  ⟨C7_include_nulls.1
      { field := "priority", value := .single (.int 3),
        comparator := TaskFilterComparator.equals, isNumeric := true }
      (fun _ => none) _ _ rfl rfl,
   C7_include_nulls.2
      [{ field := "priority", value := .single (.int 3),
         comparator := TaskFilterComparator.equals, isNumeric := true }]
      (fun _ => some (.int 0)) _ _
      (by intro g hg; cases hg with
          | head => exact ⟨rfl, rfl⟩
          | tail _ h => cases h)
      rfl rfl⟩

/-! ## Field resolution, literal coercion and the expression parser (C8, C9)

`getNativeValueForTaskField` resolves a filter field name against the Go
`Task` struct by reflection and coerces the literal to the field's native
type.  The reflection registry is transcribed from the `Task` struct
declaration (field name → `reflect.Kind`); the case conversion
`strcase.ToCamel` + `strings.ReplaceAll(·, "Id", "ID")` is implemented over
character lists.  The external parsers the coercion calls out to (the
`go-datemath` library and the `time.Parse` layouts) are supplied as oracles in
a `CoerceEnv`; `strconv.ParseInt/ParseBool` are implemented faithfully, and
`strconv.ParseFloat` is modelled on plain decimal forms. -/

/-- One error type for the whole resolution/parse pipeline, mirroring the Go
error values: `ErrInvalidTaskField`, `ErrInvalidTaskFilterValue`,
`ErrInvalidTaskFilterComparator`, the raw `strconv`/time parse errors that
`getValueForField` returns unwrapped, and the `panic` of its default branch
(modelled as a distinguished error). -/
inductive FilterParseErr where
  | invalidTaskField (fieldName : String)
  | invalidTaskFilterValue (value field : String)
  | invalidTaskFilterComparator (comparator : String)
  | numError (literal : String)
  | boolError (literal : String)
  | timeError (literal : String)
  | panicUnrecognized (fieldName : String)
deriving DecidableEq, Repr

/-- The `reflect.Kind`s (plus the time/relation special cases) of the fields
of the Go `Task` struct. -/
inductive FieldKind where
  | int64
  | float64
  | strKind
  | boolKind
  | timeStruct
  | slicePtr
  | sliceTime
  | intKind
  | mapKind
  | ptrKind
  | ifaceKind
deriving DecidableEq, Repr

/-- The reflection lookup `reflect.TypeOf(&Task{}).Elem().FieldByName`,
transcribed from the `Task` struct declaration in `pkg/models/tasks.go`. -/
def taskFieldKind (name : String) : Option FieldKind :=
  match name with
  | "ID" => some .int64
  | "Title" => some .strKind
  | "Description" => some .strKind
  | "Done" => some .boolKind
  | "DoneAt" => some .timeStruct
  | "DueDate" => some .timeStruct
  | "ReminderDates" => some .sliceTime
  | "Reminders" => some .slicePtr
  | "ProjectID" => some .int64
  | "RepeatAfter" => some .int64
  | "RepeatMode" => some .intKind
  | "Priority" => some .int64
  | "StartDate" => some .timeStruct
  | "EndDate" => some .timeStruct
  | "Assignees" => some .slicePtr
  | "Labels" => some .slicePtr
  | "HexColor" => some .strKind
  | "PercentDone" => some .float64
  | "Identifier" => some .strKind
  | "Index" => some .int64
  | "UID" => some .strKind
  | "RelatedTasks" => some .mapKind
  | "Attachments" => some .slicePtr
  | "CoverImageAttachmentID" => some .int64
  | "IsFavorite" => some .boolKind
  | "Subscription" => some .ptrKind
  | "Created" => some .timeStruct
  | "Updated" => some .timeStruct
  | "BucketID" => some .int64
  | "Position" => some .float64
  | "KanbanPosition" => some .float64
  | "CreatedBy" => some .ptrKind
  | "CreatedByID" => some .int64
  | "CRUDable" => some .ifaceKind
  | "Rights" => some .ifaceKind
  | _ => none

def isSepChar (c : Char) : Bool := c = '_' || c = '-' || c = ' ' || c = '.'

def splitChars : List Char → List (List Char)
  | [] => [[]]
  | c :: rest =>
      let r := splitChars rest
      if isSepChar c then [] :: r
      else
        match r with
        | [] => [[c]]
        | h :: t => (c :: h) :: t

def capitalizeChars : List Char → List Char
  | [] => []
  | c :: rest => c.toUpper :: rest

/-- `strcase.ToCamel` on the snake/kebab-case names the filter grammar uses:
split on separators and capitalize each part. -/
def toCamel (s : String) : String :=
  String.mk ((splitChars s.data).map capitalizeChars).flatten

/-- `strings.ReplaceAll(s, "Id", "ID")`. -/
def replaceIdChars : List Char → List Char
  | 'I' :: 'd' :: rest => 'I' :: 'D' :: replaceIdChars rest
  | c :: rest => c :: replaceIdChars rest
  | [] => []

/-- The `realFieldName` computation of `getNativeValueForTaskField`. -/
def realTaskFieldName (s : String) : String :=
  String.mk (replaceIdChars (toCamel s).data)

def digitVal (c : Char) : Option Nat :=
  if '0' ≤ c ∧ c ≤ '9' then some (c.toNat - '0'.toNat) else none

def parseDigits : List Char → Option Nat
  | [] => none
  | l =>
      l.foldl
        (fun acc c =>
          match acc, digitVal c with
          | some n, some d => some (n * 10 + d)
          | _, _ => none)
        (some 0)

/-- `strconv.ParseInt(s, 10, 64)`: optional sign, decimal digits, 64-bit
range check. -/
def parseIntGo (s : String) : Option Int :=
  let withSign : Option (Bool × List Char) :=
    match s.data with
    | [] => none
    | '+' :: rest => if rest = [] then none else some (false, rest)
    | '-' :: rest => if rest = [] then none else some (true, rest)
    | l => some (false, l)
  match withSign with
  | none => none
  | some (neg, digits) =>
      match parseDigits digits with
      | none => none
      | some n =>
          let v : Int := if neg then -(n : Int) else (n : Int)
          if -(2 ^ 63) ≤ v ∧ v ≤ 2 ^ 63 - 1 then some v else none

/-- `strconv.ParseBool`: accepts exactly
`1, t, T, TRUE, true, True, 0, f, F, FALSE, false, False`. -/
def parseBoolGo (s : String) : Option Bool :=
  match s with
  | "1" => some true
  | "t" => some true
  | "T" => some true
  | "TRUE" => some true
  | "true" => some true
  | "True" => some true
  | "0" => some false
  | "f" => some false
  | "F" => some false
  | "FALSE" => some false
  | "false" => some false
  | "False" => some false
  | _ => none

/-- `strconv.ParseFloat(s, 64)` restricted to plain decimal forms
`[sign] digits [. digits]` (exponents and the special forms are out of scope
of the claims; any unparsed literal is a parse failure either way). -/
def parseFloatGo (s : String) : Option ℚ :=
  let withSign : Option (Bool × List Char) :=
    match s.data with
    | [] => none
    | '+' :: rest => if rest = [] then none else some (false, rest)
    | '-' :: rest => if rest = [] then none else some (true, rest)
    | l => some (false, l)
  match withSign with
  | none => none
  | some (neg, body) =>
      let intPart := body.takeWhile fun c => decide ('0' ≤ c ∧ c ≤ '9')
      let rest := body.dropWhile fun c => decide ('0' ≤ c ∧ c ≤ '9')
      match rest with
      | [] =>
          match parseDigits intPart with
          | none => none
          | some n => some (if neg then -(n : ℚ) else (n : ℚ))
      | '.' :: fracPart =>
          if fracPart.all (fun c => decide ('0' ≤ c ∧ c ≤ '9')) ∧ fracPart ≠ [] ∧
              intPart ≠ [] then
            match parseDigits intPart, parseDigits fracPart with
            | some n, some fr =>
                let q : ℚ := (n : ℚ) + (fr : ℚ) / (10 : ℚ) ^ fracPart.length
                some (if neg then -q else q)
            | _, _ => none
          else none
      | _ => none

/-- The external time parsers `parseTimeFromUserInput` and `getValueForField`
call out to, as oracles returning the parsed instant (already normalized to
the configured zone, which changes no instant in our one-zone model). -/
structure CoerceEnv where
  datemathParse : String → Option Int
  parseRFC3339 : String → Option Int
  parseSafariDateAndTime : String → Option Int
  parseSafariDate : String → Option Int

/-- `parseTimeFromUserInput` from `task_collection_filter.go`: RFC 3339, then
the two Safari layouts, then a manual `YYYY-M-D` split parsed with
`strconv.Atoi` and assembled with `time.Date`. -/
def parseTimeFromUserInput (env : CoerceEnv) (timeString : String) : Option Int :=
  match env.parseRFC3339 timeString with
  | some v => some v
  | none =>
      match env.parseSafariDateAndTime timeString with
      | some v => some v
      | none =>
          match env.parseSafariDate timeString with
          | some v => some v
          | none =>
              let parts := timeString.splitOn "-"
              match parts with
              | y :: m :: d :: _ =>
                  match parseIntGo y, parseIntGo m, parseIntGo d with
                  | some yv, some mv, some dv => some (mkGoTime yv mv dv 0)
                  | _, _, _ => none
              | _ => none

/-- `getValueForField` from `task_collection_filter.go`, switching on the
reflected kind of the resolved field.  The `default:` branch of the Go switch
panics; the panic is modelled as the distinguished error
`panicUnrecognized`. -/
def getValueForField (env : CoerceEnv) (kind : FieldKind) (fieldName rawValue : String) :
    Except FilterParseErr FVal :=
  match kind with
  | .int64 =>
      match parseIntGo rawValue with
      | some n => .ok (.int n)
      | none => .error (.numError rawValue)
  | .float64 =>
      match parseFloatGo rawValue with
      | some q => .ok (.float q)
      | none => .error (.numError rawValue)
  | .strKind => .ok (.str rawValue)
  | .boolKind =>
      match parseBoolGo rawValue with
      | some b => .ok (.bool b)
      | none => .error (.boolError rawValue)
  | .timeStruct =>
      match env.datemathParse rawValue with
      | some t => .ok (.time t)
      | none =>
          match parseTimeFromUserInput env rawValue with
          | some t => .ok (.time t)
          | none => .error (.timeError rawValue)
  | .slicePtr =>
      match parseIntGo rawValue with
      | some n => .ok (.int n)
      | none => .error (.numError rawValue)
  | .sliceTime =>
      match env.parseRFC3339 rawValue with
      | some t => .ok (.time t)
      | none => .error (.timeError rawValue)
  | _ => .error (.panicUnrecognized fieldName)

/-- The per-piece coercion loop of the `in` comparator. -/
def coerceList (env : CoerceEnv) (kind : FieldKind) (fieldName : String) :
    List String → Except FilterParseErr (List FVal)
  | [] => .ok []
  | v :: vs =>
      match getValueForField env kind fieldName v with
      | .error e => .error e
      | .ok x =>
          match coerceList env kind fieldName vs with
          | .error e => .error e
          | .ok xs => .ok (x :: xs)

/-- `getNativeValueForTaskField` from `task_collection_filter.go`: `assignees`
bypasses the schema and yields the raw username strings; an unresolvable name
is an `ErrInvalidTaskField`; `reminders` re-resolves against
`TaskReminder.Reminder` (a `time.Time` field); the `in` comparator splits on
commas and coerces each piece (returning a nil reflect field, so such terms
are never numeric); otherwise the single literal is coerced and the resolved
field is returned alongside. -/
def getNativeValueForTaskField (env : CoerceEnv) (fieldName : String)
    (comparator : TaskFilterComparator) (value : String) :
    Except FilterParseErr (Option FieldKind × FilterValueL) :=
  let realFieldName := realTaskFieldName fieldName
  if realFieldName = "Assignees" then
    .ok (none, .strVals (value.splitOn ","))
  else
    match taskFieldKind realFieldName with
    | none => .error (.invalidTaskField fieldName)
    | some kind0 =>
        let kind := if realFieldName = "Reminders" then FieldKind.timeStruct else kind0
        if comparator = TaskFilterComparator.isIn then
          match coerceList env kind fieldName (value.splitOn ",") with
          | .error e => .error e
          | .ok vs => .ok (none, .vals vs)
        else
          match getValueForField env kind fieldName value with
          | .error e => .error e
          | .ok v => .ok (some kind, .single v)

/-- The string value of a comparator (the Go `taskFilterComparator` IS its
string; the enum carries it here). -/
def comparatorStr : TaskFilterComparator → String
  | .invalid => "invalid"
  | .equals => "="
  | .greater => ">"
  | .greaterEquals => ">="
  | .less => "<"
  | .lessEquals => "<="
  | .notEquals => "!="
  | .like => "like"
  | .isIn => "in"

/-- `getFilterComparatorFromOp` from `task_collection_filter.go`, on the
`fexpr` sign-operator tokens. -/
def getFilterComparatorFromOp (op : String) : Except FilterParseErr TaskFilterComparator :=
  match op with
  | "=" => .ok .equals
  | ">" => .ok .greater
  | ">=" => .ok .greaterEquals
  | "<" => .ok .less
  | "<=" => .ok .lessEquals
  | "!=" => .ok .notEquals
  | "~" => .ok .like
  | "?=" => .ok .isIn
  | "in" => .ok .isIn
  | _ => .error (.invalidTaskFilterComparator op)

/-- `validateTaskFieldComparator` from `task_collection_filter.go`. -/
def validateTaskFieldComparator (comparator : TaskFilterComparator) :
    Except FilterParseErr Unit :=
  match comparator with
  | .equals => .ok ()
  | .greater => .ok ()
  | .greaterEquals => .ok ()
  | .less => .ok ()
  | .lessEquals => .ok ()
  | .notEquals => .ok ()
  | .like => .ok ()
  | .isIn => .ok ()
  | .invalid => .error (.invalidTaskFilterComparator (comparatorStr .invalid))

/-- `fexpr.JoinOp` (`&&` / `||`), mapped by `parseFilterFromExpression` to the
task filter concatenators `and` / `or`. -/
inductive FJoin where
  | jand
  | jor
deriving DecidableEq, Repr

mutual
inductive FExpr where
  | expr (join : FJoin) (left : String) (op : String) (right : String) : FExpr
  | group (join : FJoin) (children : FExprList) : FExpr
inductive FExprList where
  | nil : FExprList
  | cons (hd : FExpr) (tl : FExprList) : FExprList
end

/-- The parsed `taskFilter` tree: either a leaf (field, native value,
comparator, numeric flag) or a group whose value is the list of sub-filters,
each carrying its join operator. -/
inductive ParsedFilter where
  | leaf (join : FJoin) (field : String) (value : FilterValueL)
      (comparator : TaskFilterComparator) (isNumeric : Bool) : ParsedFilter
  | grp (join : FJoin) (children : List ParsedFilter) : ParsedFilter

mutual
/-- `parseFilterFromExpression` from `task_collection_filter.go`.  For a leaf:
resolve the comparator, validate it, rewrite `project` to `project_id`, and
coerce the literal — wrapping EVERY error of that last step (including the
`ErrInvalidTaskField` of an unknown name) into `ErrInvalidTaskFilterValue`,
with the field name in the `Value` slot and the literal in the `Field` slot,
exactly as the source does. -/
def parseFilterFromExpression (env : CoerceEnv) : FExpr → Except FilterParseErr ParsedFilter
  | .expr join left op right =>
      match getFilterComparatorFromOp op with
      | .error e => .error e
      | .ok comparator =>
          match validateTaskFieldComparator comparator with
          | .error e => .error e
          | .ok _ =>
              let field := if left = "project" then "project_id" else left
              match getNativeValueForTaskField env field comparator right with
              | .error _ => .error (.invalidTaskFilterValue field right)
              | .ok (reflectKind, v) =>
                  .ok (.leaf join field v comparator
                    (match reflectKind with
                     | some k => k == FieldKind.int64
                     | none => false))
  | .group join children =>
      match parseFilterExprs env children with
      | .error e => .error e
      | .ok vs => .ok (.grp join vs)

/-- The loop over a parsed expression list (both for groups and for the
top-level list in `getTaskFiltersByCollections`). -/
def parseFilterExprs (env : CoerceEnv) : FExprList → Except FilterParseErr (List ParsedFilter)
  | .nil => .ok []
  | .cons g gs =>
      match parseFilterFromExpression env g with
      | .error e => .error e
      | .ok v =>
          match parseFilterExprs env gs with
          | .error e => .error e
          | .ok vs => .ok (v :: vs)
end

/-- `models.TaskCollection`, restricted to the filter-carrying fields
`getTaskFiltersByCollections` reads: the expression string and the legacy
parallel arrays (plus their `…Arr` variants bound from array-style query
parameters). -/
structure TaskCollection where
  filter : String := ""
  filterBy : List String := []
  filterValue : List String := []
  filterComparator : List String := []
  filterByArr : List String := []
  filterValueArr : List String := []
  filterComparatorArr : List String := []

/-- `getTaskFiltersByCollections` from `task_collection_filter.go`: an empty
expression string returns immediately with no filters; otherwise the legacy
arrays are merged into the non-array fields (and never used again) and only
the `fexpr`-parsed expression string produces filter terms.  The `fexpr.Parse`
library call is an oracle. -/
def getTaskFiltersByCollections (env : CoerceEnv)
    (fexprParse : String → Except FilterParseErr FExprList) (c : TaskCollection) :
    Except FilterParseErr (List ParsedFilter) :=
  if c.filter = "" then .ok []
  else
    let c :=
      { c with
        filterBy := if c.filterByArr ≠ [] then c.filterBy ++ c.filterByArr else c.filterBy
        filterValue :=
          if c.filterValueArr ≠ [] then c.filterValue ++ c.filterValueArr else c.filterValue
        filterComparator :=
          if c.filterComparatorArr ≠ [] then c.filterComparator ++ c.filterComparatorArr
          else c.filterComparator }
    match fexprParse c.filter with
    | .error e => .error e
    | .ok parsedFilter => parseFilterExprs env parsedFilter

theorem getFilterComparatorFromOp_err (op : String) (e : FilterParseErr)
    (h : getFilterComparatorFromOp op = .error e) :
    ∃ c, e = .invalidTaskFilterComparator c := by
  unfold getFilterComparatorFromOp at h
  split at h <;> simp_all
  exact ⟨_, h.symm⟩

theorem validateTaskFieldComparator_err (c : TaskFilterComparator) (e : FilterParseErr)
    (h : validateTaskFieldComparator c = .error e) :
    ∃ s, e = .invalidTaskFilterComparator s := by
  cases c <;> simp_all [validateTaskFieldComparator]
  exact ⟨_, h.symm⟩

theorem getValueForField_never_invalidField (env : CoerceEnv) (k : FieldKind)
    (n v : String) (e : FilterParseErr) (h : getValueForField env k n v = .error e) :
    ∀ nm, e ≠ .invalidTaskField nm := by
  intro nm
  unfold getValueForField at h
  cases k <;> (try split at h) <;> (try split at h) <;> (try split at h) <;>
    first
      | (injection h with h2; subst h2; simp)
      | simp_all

theorem coerceList_never_invalidField (env : CoerceEnv) (k : FieldKind) (n : String) :
    ∀ (l : List String) (e : FilterParseErr), coerceList env k n l = .error e →
      ∀ nm, e ≠ .invalidTaskField nm := by
  intro l
  induction l with
  | nil => intro e h; simp [coerceList] at h
  | cons v vs ih =>
      intro e h nm
      unfold coerceList at h
      cases hv : getValueForField env k n v with
      | error e1 =>
          rw [hv] at h
          simp only [Except.error.injEq] at h
          subst h
          exact getValueForField_never_invalidField env k n v e1 hv nm
      | ok x =>
          rw [hv] at h
          cases hr : coerceList env k n vs with
          | error e2 =>
              rw [hr] at h
              simp only [Except.error.injEq] at h
              subst h
              exact ih e2 hr nm
          | ok xs => rw [hr] at h; simp at h

/-- Every error surfaced by `parseFilterFromExpression` is an
invalid-comparator or an invalid-filter-value error — never an invalid-field
error, because the field-resolution failure is rewrapped. -/
theorem parseFilterFromExpression_err_kinds (env : CoerceEnv) (g : FExpr) :
    ∀ e, parseFilterFromExpression env g = .error e →
      (∃ c, e = FilterParseErr.invalidTaskFilterComparator c) ∨
        ∃ a b, e = FilterParseErr.invalidTaskFilterValue a b := by
  refine @FExpr.rec
    (fun g => ∀ e, parseFilterFromExpression env g = .error e →
      (∃ c, e = FilterParseErr.invalidTaskFilterComparator c) ∨
        ∃ a b, e = FilterParseErr.invalidTaskFilterValue a b)
    (fun l => ∀ e, parseFilterExprs env l = .error e →
      (∃ c, e = FilterParseErr.invalidTaskFilterComparator c) ∨
        ∃ a b, e = FilterParseErr.invalidTaskFilterValue a b)
    ?_ ?_ ?_ ?_ g
  · intro join left op right e h
    unfold parseFilterFromExpression at h
    cases hc : getFilterComparatorFromOp op with
    | error e1 =>
        rw [hc] at h
        dsimp only at h
        simp only [Except.error.injEq] at h
        subst h
        exact Or.inl (getFilterComparatorFromOp_err op e1 hc)
    | ok comparator =>
        rw [hc] at h
        dsimp only at h
        cases hval : validateTaskFieldComparator comparator with
        | error e2 =>
            rw [hval] at h
            dsimp only at h
            simp only [Except.error.injEq] at h
            subst h
            exact Or.inl (validateTaskFieldComparator_err comparator e2 hval)
        | ok u =>
            rw [hval] at h
            dsimp only at h
            cases hn : getNativeValueForTaskField env
                (if left = "project" then "project_id" else left) comparator right with
            | error e3 =>
                rw [hn] at h
                dsimp only at h
                simp only [Except.error.injEq] at h
                exact Or.inr ⟨_, _, h.symm⟩
            | ok p =>
                rw [hn] at h
                dsimp only at h
                obtain ⟨k, v⟩ := p
                simp at h
  · intro join children ih e h
    unfold parseFilterFromExpression at h
    cases hl : parseFilterExprs env children with
    | error e1 =>
        rw [hl] at h
        dsimp only at h
        simp only [Except.error.injEq] at h
        subst h
        exact ih e1 hl
    | ok vs => rw [hl] at h; simp at h
  · intro e h
    simp [parseFilterExprs] at h
  · intro hd tl ih1 ih2 e h
    unfold parseFilterExprs at h
    cases hh : parseFilterFromExpression env hd with
    | error e1 =>
        rw [hh] at h
        dsimp only at h
        simp only [Except.error.injEq] at h
        subst h
        exact ih1 e1 hh
    | ok v =>
        rw [hh] at h
        dsimp only at h
        cases ht : parseFilterExprs env tl with
        | error e2 =>
            rw [ht] at h
            dsimp only at h
            simp only [Except.error.injEq] at h
            subst h
            exact ih2 e2 ht
        | ok vs => rw [ht] at h; simp at h

/-! ## Claim C8 -/

/-- C8 counterexample: for the unknown field `thisfielddoesnotexist`,
`getNativeValueForTaskField` produces the invalid-field error, but
`parseFilterFromExpression` surfaces an invalid-filter-value error to its
caller (with the field name in the `Value` slot), so the two error kinds are
not both surfaced as such. -/
theorem C8_error_kind_counterexample :
    getNativeValueForTaskField ⟨fun _ => none, fun _ => none, fun _ => none, fun _ => none⟩
        "thisfielddoesnotexist" TaskFilterComparator.equals "5" =
      .error (.invalidTaskField "thisfielddoesnotexist") ∧
    parseFilterFromExpression ⟨fun _ => none, fun _ => none, fun _ => none, fun _ => none⟩
        (.expr .jand "thisfielddoesnotexist" "=" "5") =
      .error (.invalidTaskFilterValue "thisfielddoesnotexist" "5") ∧
    FilterParseErr.invalidTaskFilterValue "thisfielddoesnotexist" "5" ≠
      FilterParseErr.invalidTaskField "thisfielddoesnotexist" :=
  ⟨rfl, rfl, by decide⟩

/-- C8 (amended): `getNativeValueForTaskField` does distinguish the two error
kinds — an unresolvable field name yields invalid-field, while a literal that
cannot be coerced yields the underlying coercion error, never invalid-field —
but `parseFilterFromExpression` rewraps every failure of that step into an
invalid-filter-value error, so its caller only ever observes
invalid-comparator or invalid-filter-value errors, never invalid-field. -/
theorem C8_error_kinds_amended :
    (∀ (env : CoerceEnv) (name : String) (comp : TaskFilterComparator) (v : String),
      realTaskFieldName name ≠ "Assignees" →
      taskFieldKind (realTaskFieldName name) = none →
      getNativeValueForTaskField env name comp v = .error (.invalidTaskField name)) ∧
    (∀ (env : CoerceEnv) (name : String) (comp : TaskFilterComparator) (v : String)
      (e : FilterParseErr) (k : FieldKind),
      taskFieldKind (realTaskFieldName name) = some k →
      getNativeValueForTaskField env name comp v = .error e →
      ∀ nm, e ≠ .invalidTaskField nm) ∧
    (∀ (env : CoerceEnv) (g : FExpr) (e : FilterParseErr),
      parseFilterFromExpression env g = .error e →
      (∃ c, e = FilterParseErr.invalidTaskFilterComparator c) ∨
        ∃ a b, e = FilterParseErr.invalidTaskFilterValue a b) := by
  refine ⟨?_, ?_, fun env g e h => parseFilterFromExpression_err_kinds env g e h⟩
  · intro env name comp v h1 h2
    unfold getNativeValueForTaskField
    rw [if_neg h1, h2]
  · intro env name comp v e k hk h nm
    unfold getNativeValueForTaskField at h
    by_cases h1 : realTaskFieldName name = "Assignees"
    · rw [if_pos h1] at h
      simp at h
    · rw [if_neg h1, hk] at h
      dsimp only at h
      by_cases hin : comp = TaskFilterComparator.isIn
      · rw [if_pos hin] at h
        cases hcl : coerceList env
            (if realTaskFieldName name = "Reminders" then FieldKind.timeStruct else k)
            name (v.splitOn ",") with
        | error e1 =>
            rw [hcl] at h
            simp only [Except.error.injEq] at h
            subst h
            exact coerceList_never_invalidField env _ name _ e1 hcl nm
        | ok vs => rw [hcl] at h; simp at h
      · rw [if_neg hin] at h
        cases hv : getValueForField env
            (if realTaskFieldName name = "Reminders" then FieldKind.timeStruct else k)
            name v with
        | error e1 =>
            rw [hv] at h
            simp only [Except.error.injEq] at h
            subst h
            exact getValueForField_never_invalidField env _ name v e1 hv nm
        | ok x => rw [hv] at h; simp at h

/-- Witness for the amended C8 at concrete inputs: the unknown field
`notafield`, the known boolean field `done` with the uncoercible literal
`notabool`, and the parsed leaf for the unknown field. -/
theorem C8_error_kinds_amended_witness :
    getNativeValueForTaskField ⟨fun _ => none, fun _ => none, fun _ => none, fun _ => none⟩
        "notafield" TaskFilterComparator.equals "5" =
      .error (.invalidTaskField "notafield") ∧
    (∀ nm, FilterParseErr.boolError "notabool" ≠ FilterParseErr.invalidTaskField nm) ∧
    ((∃ c, FilterParseErr.invalidTaskFilterValue "notafield" "5" =
        FilterParseErr.invalidTaskFilterComparator c) ∨
      ∃ a b, FilterParseErr.invalidTaskFilterValue "notafield" "5" =
        FilterParseErr.invalidTaskFilterValue a b) :=
  ⟨C8_error_kinds_amended.1 ⟨fun _ => none, fun _ => none, fun _ => none, fun _ => none⟩
      "notafield" TaskFilterComparator.equals "5" (by decide) rfl,
   C8_error_kinds_amended.2.1 ⟨fun _ => none, fun _ => none, fun _ => none, fun _ => none⟩
      "done" TaskFilterComparator.equals "notabool" (FilterParseErr.boolError "notabool")
      FieldKind.boolKind rfl rfl,
   C8_error_kinds_amended.2.2 ⟨fun _ => none, fun _ => none, fun _ => none, fun _ => none⟩
      (.expr .jand "notafield" "=" "5")
      (FilterParseErr.invalidTaskFilterValue "notafield" "5") rfl⟩

/-! ## Claim C9 -/

/-- C9: a request supplying only the legacy parallel-array filter form yields
no filter terms at all: `getTaskFiltersByCollections` returns immediately when
the textual filter expression is empty, without ever reading the arrays (the
supplied failing parser oracle is demonstrably never invoked), contradicting
both the claim and the swagger documentation of the `filter_by` /
`filter_comparator` / `filter_value` parameters in the same file. -/
theorem C9_legacy_arrays_ignored :
    getTaskFiltersByCollections ⟨fun _ => none, fun _ => none, fun _ => none, fun _ => none⟩
      (fun _ => .error (.invalidTaskFilterComparator "the parser was invoked"))
      { filter := "", filterByArr := ["done"], filterComparatorArr := ["equals"],
        filterValueArr := ["true"] } = .ok [] :=
  rfl

end Vikunja
